import Mathlib

/-!
A shallow embedding of `scripts/rebuild_vx_json.py`, a tool that rebuilds
VNote `vx.json` sidecar files by scanning a notebook directory tree.

Modelling conventions:
* Python/JSON values are the inductive `PyVal`.  Python `bool` is a subclass
  of `int` (`isinstance(True, int)` holds, `str(True) = "True"`), so every
  embedded `isinstance(_, int)` test has an explicit `.bool` branch.
* The filesystem is the inductive `FSNode`; names within one real directory
  are unique (the theorems that need this carry it as a hypothesis).
  A symlink is opaque (the script skips symlinks while scanning).
* Timestamps are integers counting microseconds since the Unix epoch;
  `st_mtime` fractions below a second are truncated by
  `datetime.replace(microsecond=0)`, embedded as flooring division by 10^6.
* `random.SystemRandom.getrandbits(63)` is an entropy tape `List Nat`
  (each draw taken modulo 2^63); a run that would draw from an exhausted
  tape is `Option.none`, as is a run given insufficient recursion fuel.
* Python `str.lower`/`str.casefold`/`str.isdigit`/`str.strip` are embedded
  at ASCII scope (`Char.toLower`, ASCII digits, ASCII whitespace).
* `list.sort(key=...)` is a stable sort by key; it is embedded as a stable
  insertion sort, which computes the same list.
-/

/-! ### Characters, digit strings, ASCII helpers -/

def isAsciiDigit (c : Char) : Bool := '0' ≤ c && c ≤ '9'

def pyIsSpace (c : Char) : Bool :=
  c = ' ' || c = '\t' || c = '\n' || c = '\r' || c = '\x0b' || c = '\x0c'

def digitChar (d : Nat) : Char := Char.ofNat (48 + d)

/-- Decimal rendering of a natural number (`str(n)` for `n ≥ 0`); the fuel
`n + 1` always suffices because `n < 10 ^ (n + 1)`. -/
def decimalStrAux : Nat → Nat → List Char
  | 0, _ => []
  | fuel + 1, n =>
    if n < 10 then [digitChar n] else decimalStrAux fuel (n / 10) ++ [digitChar (n % 10)]

def decimalStr (n : Nat) : String := ⟨decimalStrAux (n + 1) n⟩

/-- Python `str(value)` on an `int`. -/
def intStr (n : Int) : String :=
  if n < 0 then "-" ++ decimalStr (-n).toNat else decimalStr n.toNat

/-- Python `str.strip()` (ASCII whitespace scope). -/
def pyStrip (s : String) : String :=
  ⟨((s.data.dropWhile pyIsSpace).reverse.dropWhile pyIsSpace).reverse⟩

/-- Python `str.isdigit()` (ASCII scope): non-empty and all decimal digits. -/
def isDigitString (s : String) : Bool :=
  !s.data.isEmpty && s.data.all isAsciiDigit

/-- Python `str.lower()` / `str.casefold()` (ASCII scope). -/
def lowerStr (s : String) : String := ⟨s.data.map Char.toLower⟩

/-- Code-point lexicographic `≤` on character lists: Python string comparison. -/
def lexLe : List Char → List Char → Bool
  | [], _ => true
  | _ :: _, [] => false
  | a :: as, b :: bs => if a = b then lexLe as bs else decide (a < b)

/-- Comparison of two strings by their casefolded form, Python's
`key=str.casefold` sort order. -/
def caseLe (a b : String) : Bool := lexLe (lowerStr a).data (lowerStr b).data

/-! ### Stable sort (embedding of Python's stable `list.sort`) -/

def insertIn {α : Type} (le : α → α → Bool) (a : α) : List α → List α
  | [] => [a]
  | b :: bs => if le a b then a :: b :: bs else b :: insertIn le a bs

/-- Stable sort: an element is inserted in front of the first element it
compares `le` to, so elements with equal keys keep their original order,
exactly as Python's stable `list.sort(key=...)`. -/
def stableSortBy {α : Type} (le : α → α → Bool) (l : List α) : List α :=
  l.foldr (insertIn le) []

/-! ### Python/JSON values -/

inductive PyVal where
  | none
  | bool (b : Bool)
  | int (n : Int)
  | str (s : String)
  | list (xs : List PyVal)
  | dict (kvs : List (String × PyVal))

/-- First-match association lookup; the embedding of `dict.get` (the dicts the
script builds and the dicts produced by the JSON parser have unique keys). -/
def assocGet {β : Type} : List (String × β) → String → Option β
  | [], _ => Option.none
  | (k, v) :: rest, key => if k = key then some v else assocGet rest key

/-- `existing.get(key)`: a missing key is Python `None`. -/
def dictGetD (kvs : List (String × PyVal)) (key : String) : PyVal :=
  (assocGet kvs key).getD PyVal.none

/-! ### Constants from the script -/

def CONFIG_FILE_NAME : String := "vx.json"
def NOTE_SUFFIX : String := ".md"
def DEFAULT_CONFIG_VERSION : Int := 3

def BUILT_IN_DIR_NAMES : List String :=
  ["vx_notebook", "vx_recycle_bin", "vx_images", "vx_attachments",
   "_v_images", "_v_attachments"]

def NODE_VISUAL_KEYS : List String := ["background_color", "border_color", "name_color"]

def ATTACHMENT_ROOT_CANDIDATES : List String := ["vx_attachments", "_v_attachments"]

/-! ### Timestamps

`iso_utc_from_timestamp` embeds
`datetime.fromtimestamp(ts, tz=timezone.utc).replace(microsecond=0)
  .isoformat().replace("+00:00", "Z")`.
The civil-calendar conversion is the standard days-to-date algorithm;
`isoformat` on a whole-second UTC datetime renders
`YYYY-MM-DDTHH:MM:SS+00:00`, whose single `+00:00` occurrence (the only `+`
in the string) is replaced by `Z`. -/

def pad2 (n : Nat) : String := if n < 10 then "0" ++ decimalStr n else decimalStr n

def pad4 (n : Nat) : String :=
  if n < 10 then "000" ++ decimalStr n
  else if n < 100 then "00" ++ decimalStr n
  else if n < 1000 then "0" ++ decimalStr n
  else decimalStr n

def civilFromDays (days : Int) : Int × Nat × Nat :=
  let z := days + 719468
  let era := z.fdiv 146097
  let doe := (z - era * 146097).toNat
  let yoe := (doe - doe / 1460 + doe / 36524 - doe / 146096) / 365
  let doy := doe - (365 * yoe + yoe / 4 - yoe / 100)
  let mp := (5 * doy + 2) / 153
  let d := doy - (153 * mp + 2) / 5 + 1
  let m := if mp < 10 then mp + 3 else mp - 9
  let y := (yoe : Int) + era * 400
  (if m ≤ 2 then y + 1 else y, m, d)

def civilDateTimeStr (sec : Int) : String :=
  let days := sec.fdiv 86400
  let sod := (sec - days * 86400).toNat
  let ymd := civilFromDays days
  pad4 ymd.1.toNat ++ "-" ++ pad2 ymd.2.1 ++ "-" ++ pad2 ymd.2.2 ++ "T" ++
    pad2 (sod / 3600) ++ ":" ++ pad2 (sod % 3600 / 60) ++ ":" ++ pad2 (sod % 60)

/-- `datetime.isoformat()` of a whole-second UTC datetime. -/
def isoformat_utc (sec : Int) : String := civilDateTimeStr sec ++ "+00:00"

/-- `s.replace("+00:00", "Z")` for `isoformat_utc` output, whose sole
occurrence of the pattern is the trailing offset. -/
def replace_offset_z (s : String) : String :=
  if "+00:00".data.isSuffixOf s.data
  then ⟨s.data.take (s.data.length - 6) ++ ['Z']⟩
  else s

/-- `ts` is in microseconds; `replace(microsecond=0)` floors to the second. -/
def iso_utc_from_timestamp (ts : Int) : String :=
  replace_offset_z (isoformat_utc (ts.fdiv 1000000))

/-- `safe_mtime`: the entity's stat `st_mtime` when readable, else the current
wall clock `datetime.now(tz=timezone.utc).timestamp()` (both microseconds). -/
def safe_mtime (mtime : Option Int) (now : Int) : Int := mtime.getD now

/-! ### Parsing helpers -/

/-- `parse_id_like`.  The `.bool` branch embeds Python's
`isinstance(value, int)` accepting `True`/`False` (both `≥ 0`) and
`str(value)` rendering them as `"True"`/`"False"`. -/
def parse_id_like : PyVal → Option String
  | .bool b => some (if b then "True" else "False")
  | .int n => if 0 ≤ n then some (intStr n) else Option.none
  | .str s =>
    let t := pyStrip s
    if isDigitString t then some t else Option.none
  | _ => Option.none

def parse_signature_like (v : PyVal) : Option String :=
  match parse_id_like v with
  | Option.none => Option.none
  | some p => if p = "0" then Option.none else some p

/-- `generate_signature`: draw `getrandbits(63)` until the value is positive.
The tape entry is taken modulo `2 ^ 63` (the range of `getrandbits(63)`);
an exhausted tape is `Option.none`. -/
def generate_signature : List Nat → Option (String × List Nat)
  | [] => Option.none
  | b :: rest =>
    let sig := b % 2 ^ 63
    if 0 < sig then some (decimalStr sig, rest) else generate_signature rest

/-! ### Filesystem model and the existing-state loader -/

/-- The on-disk state of a directory's `vx.json`: `missing` (no regular file),
`invalid` (unreadable bytes or a JSON decode error), or parsed content. -/
inductive SidecarFile where
  | missing
  | invalid
  | content (v : PyVal)

/-- A directory child.  `mtime` is `none` when `stat` raises `OSError`.
Sibling names are unique on a real filesystem. -/
inductive FSNode where
  | file (name : String) (mtime : Option Int)
  | dir (name : String) (mtime : Option Int) (sidecar : SidecarFile) (children : List FSNode)
  | symlink (name : String)

def FSNode.name : FSNode → String
  | .file n _ => n
  | .dir n _ _ _ => n
  | .symlink n => n

def FSNode.mtime : FSNode → Option Int
  | .file _ m => m
  | .dir _ m _ _ => m
  | .symlink _ => Option.none

def FSNode.isDir : FSNode → Bool
  | .dir _ _ _ _ => true
  | _ => false

def FSNode.childrenOf : FSNode → List FSNode
  | .dir _ _ _ cs => cs
  | _ => []

def FSNode.sidecarOf : FSNode → SidecarFile
  | .dir _ _ sc _ => sc
  | _ => SidecarFile.missing

/-- `load_existing_config`: `{}` unless the file exists, parses, and the
top-level value is a dict. -/
def load_existing_config : SidecarFile → List (String × PyVal)
  | .content (.dict kvs) => kvs
  | _ => []

/-- `map_entries_by_name`, accumulator pass: keep the first dict entry per
non-empty string `name`, in insertion order. -/
def map_entries_aux :
    List PyVal → List (String × List (String × PyVal)) → List (String × List (String × PyVal))
  | [], acc => acc
  | item :: rest, acc =>
    match item with
    | .dict kvs =>
      match assocGet kvs "name" with
      | some (.str s) =>
        if s = "" then map_entries_aux rest acc
        else if (assocGet acc s).isSome then map_entries_aux rest acc
        else map_entries_aux rest (acc ++ [(s, kvs)])
      | _ => map_entries_aux rest acc
    | _ => map_entries_aux rest acc

def map_entries_by_name : PyVal → List (String × List (String × PyVal))
  | .list items => map_entries_aux items []
  | _ => []

/-- `get_existing_time`: keep an existing non-empty string verbatim, else
derive from the fallback timestamp. -/
def get_existing_time (existing : List (String × PyVal)) (key : String)
    (fallback_ts : Int) : String :=
  match assocGet existing key with
  | some (.str s) => if s = "" then iso_utc_from_timestamp fallback_ts else s
  | _ => iso_utc_from_timestamp fallback_ts

/-! ### Scanner -/

def is_hidden_name (name : String) : Bool :=
  match name.data with
  | '.' :: _ => true
  | _ => false

def should_exclude_dir (name : String) : Bool :=
  let low := lowerStr name
  is_hidden_name name || "_assets".data.isSuffixOf low.data || BUILT_IN_DIR_NAMES.contains low

/-- Python `Path.suffix` / `Path.stem`: the name splits at its last dot
provided that dot is neither the first nor the last character. -/
def pySplitExt (cs : List Char) : List Char × List Char :=
  let r := cs.reverse
  let after := r.takeWhile (fun c => !(c == '.'))
  if after.length < r.length then
    if after.length = 0 then (cs, [])
    else if after.length + 1 = r.length then (cs, [])
    else ((r.drop (after.length + 1)).reverse, '.' :: after.reverse)
  else (cs, [])

def pySuffix (s : String) : String := ⟨(pySplitExt s.data).2⟩

def pyStem (s : String) : String := ⟨(pySplitExt s.data).1⟩

/-- A child kept in `folders` by `iter_children`: in loop order, the child is
not named `vx.json`, is not a symlink, is a directory, and is not excluded. -/
def includedDir : FSNode → Bool
  | .dir n _ _ _ => !(n = CONFIG_FILE_NAME : Bool) && !should_exclude_dir n
  | _ => false

/-- A child kept in `notes`: not named `vx.json`, not a symlink, a regular
file whose lowercased `suffix` is `.md`. -/
def includedNote : FSNode → Bool
  | .file n _ => !(n = CONFIG_FILE_NAME : Bool) && (lowerStr (pySuffix n) = NOTE_SUFFIX : Bool)
  | _ => false

def nodeCaseLe (a b : FSNode) : Bool := caseLe a.name b.name

/-- `iter_children`: classify, then sort both lists by casefolded name. -/
def iter_children (children : List FSNode) : List FSNode × List FSNode :=
  (stableSortBy nodeCaseLe (children.filter includedDir),
   stableSortBy nodeCaseLe (children.filter includedNote))

/-! ### Attachment inference -/

/-- `(dir / nm).is_dir()` plus `iterdir` of that child: the first child
directory with the exact name `nm` (names are unique on disk). -/
def find_dir_children (cs : List FSNode) (nm : String) : Option (List FSNode) :=
  cs.findSome? fun c =>
    match c with
    | .dir n _ _ kids => if n = nm then some kids else Option.none
    | _ => Option.none

/-- The loop over `ATTACHMENT_ROOT_CANDIDATES`: a root that is not a
directory, or whose sub-directory count differs from one, falls through to
the next candidate. -/
def infer_from_roots (assetsKids : List FSNode) : List String → String
  | [] => ""
  | rootName :: rest =>
    match find_dir_children assetsKids rootName with
    | Option.none => infer_from_roots assetsKids rest
    | some rootKids =>
      match stableSortBy caseLe ((rootKids.filter FSNode.isDir).map FSNode.name) with
      | [x] => x
      | _ => infer_from_roots assetsKids rest

def infer_attachment_folder_from_assets (noteName : String) (siblings : List FSNode) : String :=
  match find_dir_children siblings (pyStem noteName ++ "_assets") with
  | Option.none => ""
  | some assetsKids => infer_from_roots assetsKids ATTACHMENT_ROOT_CANDIDATES

/-! ### Reconciler -/

def clean_tags : PyVal → List String
  | .list xs =>
    xs.filterMap fun v =>
      match v with
      | .str s => if s = "" then Option.none else some s
      | _ => Option.none
  | _ => []

/-- The `for key in NODE_VISUAL_KEYS` pass-through: a key is emitted exactly
when the existing value is a non-empty string. -/
def visual_pair (existing : List (String × PyVal)) (key : String) : List (String × PyVal) :=
  match assocGet existing key with
  | some (.str s) => if s = "" then [] else [(key, PyVal.str s)]
  | _ => []

def visual_pairs (existing : List (String × PyVal)) : List (String × PyVal) :=
  visual_pair existing "background_color" ++ visual_pair existing "border_color" ++
    visual_pair existing "name_color"

def build_folder_entry (name : String) (existing : List (String × PyVal)) :
    List (String × PyVal) :=
  ("name", PyVal.str name) :: visual_pairs existing

/-- The existing `attachment_folder` value, `""` unless it is a string. -/
def existing_attachment_folder (existing : List (String × PyVal)) : String :=
  match assocGet existing "attachment_folder" with
  | some (.str s) => s
  | _ => ""

/-- The value written: a non-empty existing string is trusted, otherwise the
filesystem inference runs. -/
def chosen_attachment_folder (existing : List (String × PyVal)) (noteName : String)
    (siblings : List FSNode) : String :=
  if existing_attachment_folder existing = "" then
    infer_attachment_folder_from_assets noteName siblings
  else existing_attachment_folder existing

/-- The signature kept or drawn: a valid existing signature consumes no
entropy, otherwise `generate_signature` draws from the tape. -/
def sig_draw (existing : List (String × PyVal)) (tape : List Nat) :
    Option (String × List Nat) :=
  match parse_signature_like (dictGetD existing "signature") with
  | some s => some (s, tape)
  | Option.none => generate_signature tape

/-- The dict `build_file_entry` constructs, given the chosen signature; key
order follows the Python dict literal, with `attachment_folder` and the
visual keys appended. -/
def build_file_entry_pure (note : FSNode) (siblings : List FSNode)
    (existing : List (String × PyVal)) (now : Int) (sig : String) :
    List (String × PyVal) :=
  [("name", PyVal.str note.name),
   ("id", PyVal.str ((parse_id_like (dictGetD existing "id")).getD "0")),
   ("signature", PyVal.str sig),
   ("created_time",
     PyVal.str (get_existing_time existing "created_time" (safe_mtime note.mtime now))),
   ("modified_time", PyVal.str (iso_utc_from_timestamp (safe_mtime note.mtime now))),
   ("tags", PyVal.list ((clean_tags (dictGetD existing "tags")).map PyVal.str)),
   ("attachment_folder",
     PyVal.str (chosen_attachment_folder existing note.name siblings))] ++
  visual_pairs existing

/-- `build_file_entry`.  `note` is the scanned file node, `siblings` the
children of the directory holding it (for attachment inference). -/
def build_file_entry (note : FSNode) (siblings : List FSNode)
    (existing : List (String × PyVal)) (now : Int) (tape : List Nat) :
    Option (List (String × PyVal) × List Nat) := do
  let (sig, tape1) ← sig_draw existing tape
  some (build_file_entry_pure note siblings existing now sig, tape1)

/-- The `build_file_entry` list comprehension, threading the entropy tape in
note order. -/
def build_file_entries (notes siblings : List FSNode)
    (existing_files : List (String × List (String × PyVal))) (now : Int) (tape : List Nat) :
    Option (List (List (String × PyVal)) × List Nat) :=
  match notes with
  | [] => some ([], tape)
  | note :: rest => do
    let (e, tape1) ←
      build_file_entry note siblings ((assocGet existing_files note.name).getD []) now tape
    let (es, tape2) ← build_file_entries rest siblings existing_files now tape1
    some (e :: es, tape2)

/-- `version`: kept when `isinstance(value, int)` — which Python booleans
also satisfy — else the default constant. -/
def version_of (existing : List (String × PyVal)) : PyVal :=
  match dictGetD existing "version" with
  | .int n => PyVal.int n
  | .bool b => PyVal.bool b
  | _ => PyVal.int DEFAULT_CONFIG_VERSION

/-- The dict `build_node_config` constructs, given the built file entries
and the chosen signature; key order follows the Python dict literal. -/
def build_node_config_pure (dirMtime : Option Int) (folders : List FSNode)
    (existing : List (String × PyVal)) (now : Int)
    (file_entries : List (List (String × PyVal))) (sig : String) :
    List (String × PyVal) :=
  [("version", version_of existing),
   ("id", PyVal.str ((parse_id_like (dictGetD existing "id")).getD "0")),
   ("signature", PyVal.str sig),
   ("created_time",
     PyVal.str (get_existing_time existing "created_time" (safe_mtime dirMtime now))),
   ("modified_time", PyVal.str (iso_utc_from_timestamp (safe_mtime dirMtime now))),
   ("files", PyVal.list (file_entries.map PyVal.dict)),
   ("folders", PyVal.list ((folders.map fun f =>
     build_folder_entry f.name
       ((assocGet (map_entries_by_name (dictGetD existing "folders")) f.name).getD [])).map
     PyVal.dict))] ++
  visual_pairs existing

/-- `build_node_config`.  `dirMtime` is the directory's own stat result,
`siblings` its children (attachment inference for each note looks there).
The file-entry comprehension consumes entropy before the config's own
signature, as in the Python evaluation order. -/
def build_node_config (dirMtime : Option Int) (folders notes siblings : List FSNode)
    (existing : List (String × PyVal)) (now : Int) (tape : List Nat) :
    Option (List (String × PyVal) × List Nat) := do
  let (file_entries, tape1) ←
    build_file_entries notes siblings (map_entries_by_name (dictGetD existing "files")) now tape
  let (sig, tape2) ← sig_draw existing tape1
  some (build_node_config_pure dirMtime folders existing now file_entries sig, tape2)

/-! ### Orchestrator -/

def report_line (path : String) (nFolders nNotes : Nat) : String :=
  path ++ "/" ++ CONFIG_FILE_NAME ++ "  folders=" ++ decimalStr nFolders ++
    " md=" ++ decimalStr nNotes

structure RunOut where
  configs : Nat
  folderCount : Nat
  noteCount : Nat
  reports : List String
  tree : FSNode
  tape : List Nat

structure ChildrenOut where
  pairs : List (String × FSNode)
  configs : Nat
  folderCount : Nat
  noteCount : Nat
  reports : List String
  tape : List Nat

mutual
/-- `rebuild_recursively`.  The result tree is the input tree with the
sidecar of every processed directory replaced (unless `dry_run`); processed
sub-directories are substituted back by name (sibling names are unique on a
real filesystem).  `fuel` only bounds recursion depth. -/
def rebuild_recursively :
    Nat → FSNode → Bool → Bool → String → Int → List Nat → Option RunOut
  | 0, _, _, _, _, _, _ => Option.none
  | _ + 1, .file _ _, _, _, _, _, _ => Option.none
  | _ + 1, .symlink _, _, _, _, _, _ => Option.none
  | fuel + 1, .dir name mtime sidecar children, dry_run, verbose, path, now, tape => do
    let existing := load_existing_config sidecar
    let scanned := iter_children children
    let (config, tape1) ←
      build_node_config mtime scanned.1 scanned.2 children existing now tape
    let reports0 :=
      if verbose || dry_run then [report_line path scanned.1.length scanned.2.length] else []
    let sidecar' := if dry_run then sidecar else SidecarFile.content (.dict config)
    let sub ← rebuild_children fuel scanned.1 dry_run verbose path now tape1
    let children' := children.map fun c =>
      if includedDir c then (assocGet sub.pairs c.name).getD c else c
    some {
      configs := 1 + sub.configs
      folderCount := scanned.1.length + sub.folderCount
      noteCount := scanned.2.length + sub.noteCount
      reports := reports0 ++ sub.reports
      tree := .dir name mtime sidecar' children'
      tape := sub.tape }
def rebuild_children :
    Nat → List FSNode → Bool → Bool → String → Int → List Nat → Option ChildrenOut
  | 0, _, _, _, _, _, _ => Option.none
  | _ + 1, [], _, _, _, _, tape => some ⟨[], 0, 0, 0, [], tape⟩
  | fuel + 1, f :: rest, dry_run, verbose, path, now, tape => do
    let out ← rebuild_recursively fuel f dry_run verbose (path ++ "/" ++ f.name) now tape
    let outs ← rebuild_children fuel rest dry_run verbose path now out.tape
    some ⟨(f.name, out.tree) :: outs.pairs, out.configs + outs.configs,
      out.folderCount + outs.folderCount, out.noteCount + outs.noteCount,
      out.reports ++ outs.reports, outs.tape⟩
end


/-! ### Derived definitions used by the verification -/

/-- The option a visual key contributes: `some (.str s)` exactly when the
existing value is a non-empty string. -/
def vpOpt (e : List (String × PyVal)) (k : String) : Option PyVal :=
  match assocGet e k with
  | some (.str s) => if s = "" then Option.none else some (.str s)
  | _ => Option.none

/-- True unless the raw value is a Python boolean. -/
def not_bool_val : Option PyVal → Bool
  | some (.bool _) => false
  | _ => true

def clean_entry_val : PyVal → Bool
  | .dict kvs => not_bool_val (assocGet kvs "id") && not_bool_val (assocGet kvs "signature")
  | _ => true

/-- No boolean `id`/`signature` at the top level or inside `files` entries. -/
def clean_config (kvs : List (String × PyVal)) : Bool :=
  not_bool_val (assocGet kvs "id") && not_bool_val (assocGet kvs "signature") &&
    (match assocGet kvs "files" with
     | some (.list items) => items.all clean_entry_val
     | _ => true)

def clean_sidecar : SidecarFile → Bool
  | .content (.dict kvs) => clean_config kvs
  | _ => true

def distinctNames : List String → Bool
  | [] => true
  | n :: rest => !(rest.contains n) && distinctNames rest

mutual
/-- A tree is clean when every directory has pairwise distinct, non-empty
child names — true of any real filesystem — and no sidecar stores a boolean
`id`/`signature` (the condition amended idempotence needs). -/
def clean_tree : FSNode → Bool
  | .file _ _ => true
  | .symlink _ => true
  | .dir _ _ sc cs =>
    clean_sidecar sc && distinctNames (cs.map FSNode.name) &&
      cs.all (fun c => !(FSNode.name c = "" : Bool)) && clean_children cs
def clean_children : List FSNode → Bool
  | [] => true
  | c :: cs => clean_tree c && clean_children cs
end


mutual
/-- Pairwise-distinct sibling names at every directory, true of any real
filesystem tree. -/
def uniq_tree : FSNode → Bool
  | .file _ _ => true
  | .symlink _ => true
  | .dir _ _ _ cs => distinctNames (cs.map FSNode.name) && uniq_children cs
def uniq_children : List FSNode → Bool
  | [] => true
  | c :: cs => uniq_tree c && uniq_children cs
end

/-- The per-item matcher behind `entries_find`. -/
def entry_name_match (nm : String) (it : PyVal) : Option (List (String × PyVal)) :=
  match it with
  | .dict kvs =>
    match assocGet kvs "name" with
    | some (.str s) =>
      if s = "" then Option.none else if s = nm then some kvs else Option.none
    | _ => Option.none
  | _ => Option.none

/-- The first `files`/`folders` entry carrying a given non-empty `name`,
the semantics `map_entries_by_name` gives to lookups. -/
def entries_find (items : List PyVal) (nm : String) : Option (List (String × PyVal)) :=
  items.findSome? (entry_name_match nm)

mutual
/-- All configs the run wrote into the result tree: the root sidecar plus,
recursively, those of included sub-directories. -/
def written_configs : FSNode → List (List (String × PyVal))
  | .file _ _ => []
  | .symlink _ => []
  | .dir _ _ sc cs =>
    (match sc with
     | SidecarFile.content (.dict kvs) => [kvs]
     | _ => []) ++ written_configs_children cs
def written_configs_children : List FSNode → List (List (String × PyVal))
  | [] => []
  | c :: cs =>
    (if includedDir c then written_configs c else []) ++ written_configs_children cs
end

/-- The names listed under a config's `folders` key. -/
def config_folder_names (cfg : List (String × PyVal)) : List String :=
  match assocGet cfg "folders" with
  | some (.list items) =>
    items.filterMap fun it =>
      match it with
      | .dict kvs =>
        match assocGet kvs "name" with
        | some (.str s) => some s
        | _ => Option.none
      | _ => Option.none
  | _ => []

/-- The names listed under a config's `files` key. -/
def config_file_names (cfg : List (String × PyVal)) : List String :=
  match assocGet cfg "files" with
  | some (.list items) =>
    items.filterMap fun it =>
      match it with
      | .dict kvs =>
        match assocGet kvs "name" with
        | some (.str s) => some s
        | _ => Option.none
      | _ => Option.none
  | _ => []


/-- No written config lists an excluded or sidecar-named child under
`folders`. -/
def no_excluded_folder_listed (cfgs : List (List (String × PyVal))) : Prop :=
  ∀ cfg ∈ cfgs, ∀ nm ∈ config_folder_names cfg,
    should_exclude_dir nm = false ∧ nm ≠ CONFIG_FILE_NAME

/-- The attachment-inference rule as the specification sentence reads: "the
recognized attachment root" is the first candidate directory that exists,
and only a single sub-directory under *that* root is accepted.  Compared
against `infer_attachment_folder_from_assets` (the code), which falls
through to the next candidate root when the count differs from one. -/
def infer_attachment_folder_claim (noteName : String) (siblings : List FSNode) : String :=
  match find_dir_children siblings (pyStem noteName ++ "_assets") with
  | Option.none => ""
  | some assetsKids =>
    match ATTACHMENT_ROOT_CANDIDATES.findSome? (find_dir_children assetsKids) with
    | Option.none => ""
    | some rootKids =>
      match (rootKids.filter FSNode.isDir).map FSNode.name with
      | [x] => x
      | _ => ""

/-! ### Basic lemmas: digit strings -/

theorem decimalStrAux_spec :
    ∀ fuel n, 0 < fuel → n < 10 ^ fuel →
      decimalStrAux fuel n ≠ [] ∧ ∀ c ∈ decimalStrAux fuel n, isAsciiDigit c = true := by
  intro fuel
  induction fuel with
  | zero => omega
  | succ fuel ih =>
    intro n _ hlt
    rw [decimalStrAux]
    by_cases hn : n < 10
    · simp only [if_pos hn]
      refine ⟨by simp, ?_⟩
      intro c hc
      rw [List.mem_singleton] at hc
      subst hc
      interval_cases n <;> decide
    · simp only [if_neg hn]
      have hfuel : 0 < fuel := by
        rcases Nat.eq_zero_or_pos fuel with h0 | h0
        · subst h0; simp at hlt; omega
        · exact h0
      have hdiv : n / 10 < 10 ^ fuel := by
        have : n < 10 * 10 ^ fuel := by
          rw [pow_succ] at hlt; omega
        omega
      obtain ⟨hne, hall⟩ := ih (n / 10) hfuel hdiv
      refine ⟨by simp, ?_⟩
      intro c hc
      rw [List.mem_append] at hc
      rcases hc with hc | hc
      · exact hall c hc
      · rw [List.mem_singleton] at hc
        subst hc
        have : n % 10 < 10 := Nat.mod_lt _ (by omega)
        set k := n % 10 with hk
        interval_cases k <;> decide

theorem decimalStr_ne_nil (n : Nat) : (decimalStr n).data ≠ [] := by
  have := decimalStrAux_spec (n + 1) n (by omega)
    (lt_of_lt_of_le (Nat.lt_pow_self (by omega) n) (Nat.pow_le_pow_right (by omega) (by omega)))
  exact this.1

theorem decimalStr_all_digits (n : Nat) : ∀ c ∈ (decimalStr n).data, isAsciiDigit c = true := by
  have := decimalStrAux_spec (n + 1) n (by omega)
    (lt_of_lt_of_le (Nat.lt_pow_self (by omega) n) (Nat.pow_le_pow_right (by omega) (by omega)))
  exact this.2

theorem decimalStr_eq_zero_iff (n : Nat) : decimalStr n = "0" ↔ n = 0 := by
  constructor
  · intro h
    by_contra hn
    have hdat : (decimalStr n).data = ['0'] := by rw [h]
    rw [decimalStr] at hdat
    simp only at hdat
    rw [decimalStrAux] at hdat
    by_cases hlt : n < 10
    · simp only [if_pos hlt] at hdat
      have : digitChar n = '0' := by
        simpa using hdat
      have hn0 : n = 0 := by
        interval_cases n <;> revert this <;> decide
      exact hn hn0
    · simp only [if_neg hlt] at hdat
      have hfuel : 0 < n := by omega
      have hdiv : n / 10 < 10 ^ n :=
        lt_of_le_of_lt (Nat.div_le_self n 10) (Nat.lt_pow_self (by omega) n)
      obtain ⟨hne, -⟩ := decimalStrAux_spec n (n / 10) hfuel hdiv
      rcases hl : decimalStrAux n (n / 10) with - | ⟨c, cs⟩
      · exact hne hl
      · rw [hl] at hdat
        simp at hdat
  · intro h; subst h; rfl

/-! ### Basic lemmas: strip, parse round-trips, signature generation -/

theorem not_space_of_digit {c : Char} (h : isAsciiDigit c = true) : pyIsSpace c = false := by
  rw [pyIsSpace]
  simp only [Bool.or_eq_false_iff, decide_eq_false_iff_not]
  refine ⟨⟨⟨⟨⟨?_, ?_⟩, ?_⟩, ?_⟩, ?_⟩, ?_⟩ <;> rintro rfl <;> revert h <;> decide

theorem dropWhile_eq_self_of_digits {l : List Char}
    (h : ∀ c ∈ l, isAsciiDigit c = true) : l.dropWhile pyIsSpace = l := by
  cases l with
  | nil => rfl
  | cons a l =>
    rw [List.dropWhile_cons]
    rw [not_space_of_digit (h a (List.mem_cons_self a l))]
    simp

theorem pyStrip_of_digits {s : String}
    (h : ∀ c ∈ s.data, isAsciiDigit c = true) : pyStrip s = s := by
  rcases s with ⟨l⟩
  rw [pyStrip]
  apply congrArg String.mk
  rw [dropWhile_eq_self_of_digits h]
  rw [dropWhile_eq_self_of_digits (fun c hc => h c (List.mem_reverse.mp hc))]
  exact List.reverse_reverse l

theorem isDigitString_decimalStr (n : Nat) : isDigitString (decimalStr n) = true := by
  rw [isDigitString]
  have h1 : (decimalStr n).data.isEmpty = false := by
    rcases hl : (decimalStr n).data with - | ⟨c, cs⟩
    · exact absurd hl (decimalStr_ne_nil n)
    · rfl
  rw [h1]
  simp only [Bool.not_false, Bool.true_and, List.all_eq_true]
  exact decimalStr_all_digits n

theorem parse_id_like_decimalStr (n : Nat) :
    parse_id_like (PyVal.str (decimalStr n)) = some (decimalStr n) := by
  rw [parse_id_like]
  simp only [pyStrip_of_digits (decimalStr_all_digits n), isDigitString_decimalStr n, if_pos]

theorem intStr_nonneg (n : Int) (h : 0 ≤ n) : intStr n = decimalStr n.toNat := by
  rw [intStr, if_neg (by omega)]

/-- Digit strings parse back to themselves; this drives idempotence. -/
theorem parse_id_like_of_digits {s : String} (h : isDigitString s = true) :
    parse_id_like (PyVal.str s) = some s := by
  rw [parse_id_like]
  have hd : ∀ c ∈ s.data, isAsciiDigit c = true := by
    rw [isDigitString] at h
    simp only [Bool.and_eq_true, List.all_eq_true] at h
    exact h.2
  simp only [pyStrip_of_digits hd, h, if_pos]

/-- Any value `parse_id_like` accepts from a non-boolean raw value re-parses
to itself. -/
theorem parse_id_like_roundtrip {v : PyVal} {s : String}
    (hv : ∀ b, v ≠ PyVal.bool b) (h : parse_id_like v = some s) :
    parse_id_like (PyVal.str s) = some s := by
  cases v with
  | bool b => exact absurd rfl (hv b)
  | int n =>
    rw [parse_id_like] at h
    by_cases hn : 0 ≤ n
    · rw [if_pos hn] at h
      obtain rfl : intStr n = s := by simpa using h
      rw [intStr_nonneg n hn]
      exact parse_id_like_decimalStr n.toNat
    · rw [if_neg hn] at h; exact absurd h (by simp)
  | str t =>
    simp only [parse_id_like] at h
    by_cases hd : isDigitString (pyStrip t) = true
    · rw [if_pos hd] at h
      obtain rfl : pyStrip t = s := by simpa using h
      exact parse_id_like_of_digits hd
    · rw [if_neg hd] at h; exact absurd h (by simp)
  | none =>
    rw [show parse_id_like PyVal.none = Option.none from rfl] at h
    exact absurd h (by simp)
  | list xs =>
    rw [show parse_id_like (PyVal.list xs) = Option.none from rfl] at h
    exact absurd h (by simp)
  | dict kvs =>
    rw [show parse_id_like (PyVal.dict kvs) = Option.none from rfl] at h
    exact absurd h (by simp)

theorem parse_signature_like_roundtrip {v : PyVal} {s : String}
    (hv : ∀ b, v ≠ PyVal.bool b) (h : parse_signature_like v = some s) :
    parse_signature_like (PyVal.str s) = some s := by
  rw [parse_signature_like] at h ⊢
  rcases hp : parse_id_like v with - | p
  · rw [hp] at h; exact absurd h (by simp)
  · rw [hp] at h
    dsimp only at h
    by_cases h0 : p = "0"
    · rw [if_pos h0] at h; exact absurd h (by simp)
    · rw [if_neg h0] at h
      obtain rfl : p = s := by simpa using h
      rw [parse_id_like_roundtrip hv hp]
      dsimp only
      rw [if_neg h0]

/-- Every generated signature is the decimal rendering of a strictly
positive integer below `2 ^ 63`. -/
theorem generate_signature_spec :
    ∀ tape s rest, generate_signature tape = some (s, rest) →
      ∃ m : Nat, 0 < m ∧ m < 2 ^ 63 ∧ s = decimalStr m := by
  intro tape
  induction tape with
  | nil => intro s rest h; exact absurd h (by rw [generate_signature]; simp)
  | cons b bs ih =>
    intro s rest h
    simp only [generate_signature] at h
    by_cases hpos : 0 < b % 2 ^ 63
    · rw [if_pos hpos] at h
      obtain ⟨rfl, rfl⟩ : decimalStr (b % 2 ^ 63) = s ∧ bs = rest := by
        constructor <;> simp_all
      exact ⟨b % 2 ^ 63, hpos, Nat.mod_lt _ (by positivity), rfl⟩
    · rw [if_neg hpos] at h
      exact ih s rest h

theorem parse_signature_like_decimalStr {m : Nat} (hm : 0 < m) :
    parse_signature_like (PyVal.str (decimalStr m)) = some (decimalStr m) := by
  rw [parse_signature_like, parse_id_like_decimalStr m]
  dsimp only
  rw [if_neg (fun h => (by omega : m ≠ 0) ((decimalStr_eq_zero_iff m).mp h))]

/-! ### Association list lemmas -/

theorem assocGet_cons_eq {β : Type} (k : String) (v : β) (l : List (String × β)) :
    assocGet ((k, v) :: l) k = some v := by
  rw [assocGet, if_pos rfl]

theorem assocGet_cons_ne {β : Type} {k key : String} (v : β) (l : List (String × β))
    (h : k ≠ key) : assocGet ((k, v) :: l) key = assocGet l key := by
  rw [assocGet, if_neg h]

theorem assocGet_append_right {β : Type} {l1 : List (String × β)} (l2 : List (String × β))
    {key : String} (h : ∀ p ∈ l1, p.1 ≠ key) :
    assocGet (l1 ++ l2) key = assocGet l2 key := by
  induction l1 with
  | nil => rfl
  | cons p l1 ih =>
    rcases p with ⟨k, v⟩
    rw [List.cons_append, assocGet_cons_ne v _ (h (k, v) (List.mem_cons_self _ _))]
    exact ih (fun q hq => h q (List.mem_cons_of_mem _ hq))

theorem assocGet_append_left {β : Type} {l1 : List (String × β)} (l2 : List (String × β))
    {key : String} {v : β} (h : assocGet l1 key = some v) :
    assocGet (l1 ++ l2) key = some v := by
  induction l1 with
  | nil => exact absurd h (by rw [assocGet]; simp)
  | cons p l1 ih =>
    rcases p with ⟨k, w⟩
    by_cases hk : k = key
    · subst hk
      rw [assocGet_cons_eq] at h
      rw [List.cons_append, assocGet_cons_eq]
      exact h
    · rw [assocGet_cons_ne _ _ hk] at h
      rw [List.cons_append, assocGet_cons_ne _ _ hk]
      exact ih h

theorem assocGet_eq_none_of_keys {β : Type} {l : List (String × β)} {key : String}
    (h : ∀ p ∈ l, p.1 ≠ key) : assocGet l key = Option.none := by
  induction l with
  | nil => rfl
  | cons p l ih =>
    rcases p with ⟨k, v⟩
    rw [assocGet_cons_ne v _ (h (k, v) (List.mem_cons_self _ _))]
    exact ih (fun q hq => h q (List.mem_cons_of_mem _ hq))

/-! ### Order lemmas for the sort keys -/

theorem lexLe_trans : ∀ a b c, lexLe a b = true → lexLe b c = true → lexLe a c = true := by
  intro a
  induction a with
  | nil => intro b c _ _; rfl
  | cons x xs ih =>
    intro b c hab hbc
    match b, c with
    | [], _ => rw [lexLe] at hab; exact absurd hab (by simp)
    | _ :: _, [] => rw [lexLe] at hbc; exact absurd hbc (by simp)
    | y :: ys, z :: zs =>
      rw [lexLe] at hab hbc ⊢
      by_cases hxy : x = y
      · subst hxy
        rw [if_pos rfl] at hab
        by_cases hyz : x = z
        · subst hyz
          rw [if_pos rfl] at hbc
          rw [if_pos rfl]
          exact ih ys zs hab hbc
        · rw [if_neg hyz] at hbc
          rw [if_neg hyz]
          exact hbc
      · rw [if_neg hxy] at hab
        have hlt1 : x < y := by simpa using hab
        by_cases hyz : y = z
        · subst hyz
          rw [if_neg hxy]
          simpa using hlt1
        · rw [if_neg hyz] at hbc
          have hlt2 : y < z := by simpa using hbc
          have hxz : x < z := lt_trans hlt1 hlt2
          have hne : ¬ x = z := by
            intro h
            rw [h] at hxz
            exact lt_irrefl z hxz
          rw [if_neg hne]
          simpa using hxz

theorem lexLe_total : ∀ a b, lexLe a b || lexLe b a := by
  intro a
  induction a with
  | nil => intro b; rw [lexLe]; simp
  | cons x xs ih =>
    intro b
    match b with
    | [] => simp [lexLe]
    | y :: ys =>
      rw [lexLe, lexLe]
      by_cases hxy : x = y
      · subst hxy
        rw [if_pos rfl, if_pos rfl]
        exact ih ys
      · rw [if_neg hxy, if_neg (fun h => hxy h.symm)]
        rcases lt_or_gt_of_ne (show x ≠ y from hxy) with h | h
        · simp [h]
        · simp [h]

theorem caseLe_trans (a b c : String) (h1 : caseLe a b = true) (h2 : caseLe b c = true) :
    caseLe a c = true :=
  lexLe_trans _ _ _ h1 h2

theorem caseLe_total (a b : String) : caseLe a b || caseLe b a :=
  lexLe_total _ _

/-! ### Stable sort lemmas -/

theorem mem_insertIn {α : Type} (le : α → α → Bool) (a x : α) :
    ∀ l, x ∈ insertIn le a l ↔ x = a ∨ x ∈ l := by
  intro l
  induction l with
  | nil => rw [insertIn]; simp
  | cons b bs ih =>
    rw [insertIn]
    by_cases h : le a b
    · rw [if_pos h]
      exact List.mem_cons
    · rw [if_neg (by simpa using h)]
      simp only [List.mem_cons, ih]
      tauto

theorem insertIn_perm {α : Type} (le : α → α → Bool) (a : α) :
    ∀ l, (insertIn le a l).Perm (a :: l) := by
  intro l
  induction l with
  | nil => rw [insertIn]
  | cons b bs ih =>
    rw [insertIn]
    by_cases h : le a b
    · rw [if_pos h]
    · rw [if_neg (by simpa using h)]
      exact List.Perm.trans (List.Perm.cons b ih) (List.Perm.swap a b bs)

theorem stableSortBy_perm {α : Type} (le : α → α → Bool) :
    ∀ l : List α, (stableSortBy le l).Perm l := by
  intro l
  induction l with
  | nil => rfl
  | cons a l ih =>
    rw [stableSortBy, List.foldr_cons]
    exact List.Perm.trans (insertIn_perm le a _) (List.Perm.cons a ih)

theorem mem_stableSortBy {α : Type} (le : α → α → Bool) (x : α) (l : List α) :
    x ∈ stableSortBy le l ↔ x ∈ l :=
  (stableSortBy_perm le l).mem_iff

theorem length_stableSortBy {α : Type} (le : α → α → Bool) (l : List α) :
    (stableSortBy le l).length = l.length :=
  (stableSortBy_perm le l).length_eq

theorem sorted_insertIn {α : Type} {le : α → α → Bool}
    (trans : ∀ a b c, le a b = true → le b c = true → le a c = true)
    (total : ∀ a b, le a b || le b a) (a : α) :
    ∀ l, l.Pairwise (fun x y => le x y = true) →
      (insertIn le a l).Pairwise (fun x y => le x y = true) := by
  intro l
  induction l with
  | nil => intro _; rw [insertIn]; simp
  | cons b bs ih =>
    intro h
    rw [List.pairwise_cons] at h
    rw [insertIn]
    by_cases hab : le a b
    · rw [if_pos hab]
      refine List.Pairwise.cons ?_ (List.Pairwise.cons h.1 h.2)
      intro x hx
      rcases List.mem_cons.mp hx with rfl | hx
      · exact hab
      · exact trans a b x hab (h.1 x hx)
    · rw [if_neg (by simpa using hab)]
      refine List.Pairwise.cons ?_ (ih h.2)
      intro x hx
      rcases (mem_insertIn le a x bs).mp hx with hxa | hx
      · rw [hxa]
        have := total a b
        rw [Bool.or_eq_true] at this
        rcases this with h1 | h1
        · exact absurd h1 (by simpa using hab)
        · exact h1
      · exact h.1 x hx

theorem sorted_stableSortBy {α : Type} {le : α → α → Bool}
    (trans : ∀ a b c, le a b = true → le b c = true → le a c = true)
    (total : ∀ a b, le a b || le b a) (l : List α) :
    (stableSortBy le l).Pairwise (fun x y => le x y = true) := by
  induction l with
  | nil => exact List.Pairwise.nil
  | cons a l ih =>
    rw [stableSortBy, List.foldr_cons]
    exact sorted_insertIn trans total a _ ih

theorem insertIn_map {α β : Type} (le : α → α → Bool) (le' : β → β → Bool) (f : α → β)
    (hf : ∀ a b, le' (f a) (f b) = le a b) (a : α) :
    ∀ l, insertIn le' (f a) (l.map f) = (insertIn le a l).map f := by
  intro l
  induction l with
  | nil => rfl
  | cons b bs ih =>
    rw [List.map_cons, insertIn, insertIn, hf a b]
    by_cases h : le a b
    · rw [if_pos h, if_pos h, List.map_cons, List.map_cons]
    · rw [if_neg (by simpa using h), if_neg (by simpa using h), List.map_cons, ih]

theorem stableSortBy_map {α β : Type} (le : α → α → Bool) (le' : β → β → Bool) (f : α → β)
    (hf : ∀ a b, le' (f a) (f b) = le a b) (l : List α) :
    stableSortBy le' (l.map f) = (stableSortBy le l).map f := by
  induction l with
  | nil => rfl
  | cons a l ih =>
    rw [List.map_cons, stableSortBy, List.foldr_cons, stableSortBy, List.foldr_cons]
    rw [show List.foldr (insertIn le') [] (l.map f) = stableSortBy le' (l.map f) from rfl, ih]
    exact insertIn_map le le' f hf a _

/-! ### Append lookup, visual keys -/

theorem assocGet_append {β : Type} (l1 l2 : List (String × β)) (key : String) :
    assocGet (l1 ++ l2) key = Option.or (assocGet l1 key) (assocGet l2 key) := by
  induction l1 with
  | nil => rw [List.nil_append, assocGet, Option.none_or]
  | cons p l1 ih =>
    rcases p with ⟨k, v⟩
    by_cases hk : k = key
    · subst hk
      rw [List.cons_append, assocGet_cons_eq, assocGet_cons_eq, Option.or]
    · rw [List.cons_append, assocGet_cons_ne _ _ hk, assocGet_cons_ne _ _ hk, ih]

theorem visual_pair_eq_vpOpt (L : List (String × PyVal)) (k : String) :
    visual_pair L k =
      match vpOpt L k with
      | some v => [(k, v)]
      | Option.none => [] := by
  rw [visual_pair, vpOpt]
  rcases h : assocGet L k with - | v
  · rfl
  · cases v <;> try rfl
    rename_i s
    dsimp only
    by_cases hs : s = ""
    · rw [if_pos hs, if_pos hs]
    · rw [if_neg hs, if_neg hs]

theorem vpOpt_congr {L L' : List (String × PyVal)} (k : String)
    (h : assocGet L k = assocGet L' k) : vpOpt L k = vpOpt L' k := by
  rw [vpOpt, vpOpt, h]

theorem vpOpt_shape (L : List (String × PyVal)) (k : String) :
    vpOpt L k = Option.none ∨ ∃ s, s ≠ "" ∧ vpOpt L k = some (.str s) := by
  rw [vpOpt]
  rcases assocGet L k with - | v
  · exact Or.inl rfl
  · cases v
    case str s =>
      dsimp only
      by_cases hs : s = ""
      · rw [if_pos hs]; exact Or.inl rfl
      · rw [if_neg hs]; exact Or.inr ⟨s, hs, rfl⟩
    all_goals exact Or.inl rfl

theorem assocGet_visual_pair_self (e : List (String × PyVal)) (k : String) :
    assocGet (visual_pair e k) k = vpOpt e k := by
  rw [visual_pair_eq_vpOpt]
  rcases vpOpt_shape e k with h | ⟨s, -, h⟩ <;> rw [h]
  · rfl
  · exact assocGet_cons_eq _ _ _

theorem assocGet_visual_pair_ne (e : List (String × PyVal)) {k k' : String} (h : k ≠ k') :
    assocGet (visual_pair e k) k' = Option.none := by
  rw [visual_pair_eq_vpOpt]
  rcases vpOpt_shape e k with h0 | ⟨s, -, h0⟩ <;> rw [h0]
  · rfl
  · rw [assocGet_cons_ne _ _ h]; rfl

theorem assocGet_visual_pairs_bg (e : List (String × PyVal)) :
    assocGet (visual_pairs e) "background_color" = vpOpt e "background_color" := by
  rw [visual_pairs, assocGet_append, assocGet_append, assocGet_visual_pair_self,
    assocGet_visual_pair_ne e (show "border_color" ≠ "background_color" by decide),
    assocGet_visual_pair_ne e (show "name_color" ≠ "background_color" by decide),
    Option.or_none, Option.or_none]

theorem assocGet_visual_pairs_bo (e : List (String × PyVal)) :
    assocGet (visual_pairs e) "border_color" = vpOpt e "border_color" := by
  rw [visual_pairs, assocGet_append, assocGet_append,
    assocGet_visual_pair_ne e (show "background_color" ≠ "border_color" by decide),
    assocGet_visual_pair_self,
    assocGet_visual_pair_ne e (show "name_color" ≠ "border_color" by decide),
    Option.none_or, Option.or_none]

theorem assocGet_visual_pairs_nc (e : List (String × PyVal)) :
    assocGet (visual_pairs e) "name_color" = vpOpt e "name_color" := by
  rw [visual_pairs, assocGet_append, assocGet_append,
    assocGet_visual_pair_ne e (show "background_color" ≠ "name_color" by decide),
    assocGet_visual_pair_ne e (show "border_color" ≠ "name_color" by decide),
    assocGet_visual_pair_self, Option.none_or, Option.none_or]

/-- A dict built as a non-visual block followed by `visual_pairs e` has
exactly the visual pairs of `e`: the pass-through is idempotent. -/
theorem visual_pairs_stable (pre : List (String × PyVal)) (e : List (String × PyVal))
    (hpre : ∀ p ∈ pre, p.1 ≠ "background_color" ∧ p.1 ≠ "border_color" ∧ p.1 ≠ "name_color") :
    visual_pairs (pre ++ visual_pairs e) = visual_pairs e := by
  have key : ∀ k, (k = "background_color" ∨ k = "border_color" ∨ k = "name_color") →
      assocGet (visual_pairs e) k = vpOpt e k := by
    intro k hk
    rcases hk with rfl | rfl | rfl
    · exact assocGet_visual_pairs_bg e
    · exact assocGet_visual_pairs_bo e
    · exact assocGet_visual_pairs_nc e
  have hget : ∀ k, (k = "background_color" ∨ k = "border_color" ∨ k = "name_color") →
      vpOpt (pre ++ visual_pairs e) k = vpOpt e k := by
    intro k hk
    have h1 : assocGet (pre ++ visual_pairs e) k = assocGet (visual_pairs e) k := by
      apply assocGet_append_right
      intro p hp
      rcases hk with rfl | rfl | rfl
      · exact (hpre p hp).1
      · exact (hpre p hp).2.1
      · exact (hpre p hp).2.2
    rw [vpOpt, h1, key k hk]
    rcases vpOpt_shape e k with h2 | ⟨s, hs, h2⟩ <;> rw [h2]
    dsimp only
    rw [if_neg hs]
  have hpair : ∀ k, (k = "background_color" ∨ k = "border_color" ∨ k = "name_color") →
      visual_pair (pre ++ visual_pairs e) k = visual_pair e k := by
    intro k hk
    rw [visual_pair_eq_vpOpt, visual_pair_eq_vpOpt, hget k hk]
  calc visual_pairs (pre ++ visual_pairs e)
      = visual_pair (pre ++ visual_pairs e) "background_color" ++
          visual_pair (pre ++ visual_pairs e) "border_color" ++
          visual_pair (pre ++ visual_pairs e) "name_color" := rfl
    _ = visual_pair e "background_color" ++ visual_pair e "border_color" ++
          visual_pair e "name_color" := by
        rw [hpair _ (Or.inl rfl), hpair _ (Or.inr (Or.inl rfl)), hpair _ (Or.inr (Or.inr rfl))]
    _ = visual_pairs e := rfl

/-! ### Timestamp lemmas -/

theorem iso_utc_ne_empty (ts : Int) : iso_utc_from_timestamp ts ≠ "" := by
  rw [iso_utc_from_timestamp, replace_offset_z]
  by_cases h : "+00:00".data.isSuffixOf (isoformat_utc (ts.fdiv 1000000)).data
  · rw [if_pos h]
    intro hc
    have := congrArg String.data hc
    simp at this
  · rw [if_neg h]
    intro hc
    have := congrArg String.data hc
    rw [isoformat_utc] at this
    rw [String.data_append] at this
    simp at this

theorem iso_utc_congr {a b : Int} (h : a.fdiv 1000000 = b.fdiv 1000000) :
    iso_utc_from_timestamp a = iso_utc_from_timestamp b := by
  rw [iso_utc_from_timestamp, iso_utc_from_timestamp, h]

theorem iso_safe_mtime_congr (o : Option Int) {now now2 : Int}
    (h : now.fdiv 1000000 = now2.fdiv 1000000) :
    iso_utc_from_timestamp (safe_mtime o now) = iso_utc_from_timestamp (safe_mtime o now2) := by
  cases o with
  | none => exact iso_utc_congr h
  | some m => rfl

theorem get_existing_time_of_str {e : List (String × PyVal)} {key s : String} (ts : Int)
    (h : assocGet e key = some (.str s)) (hs : s ≠ "") :
    get_existing_time e key ts = s := by
  rw [get_existing_time, h]
  dsimp only
  rw [if_neg hs]

theorem get_existing_time_ne_empty (e : List (String × PyVal)) (key : String) (ts : Int) :
    get_existing_time e key ts ≠ "" := by
  rw [get_existing_time]
  rcases h : assocGet e key with - | v
  · exact iso_utc_ne_empty ts
  · cases v
    case str s =>
      dsimp only
      by_cases hs : s = ""
      · rw [if_pos hs]
        exact iso_utc_ne_empty ts
      · rw [if_neg hs]
        exact hs
    all_goals
      dsimp only
      exact iso_utc_ne_empty ts

/-! ### Tags -/

theorem clean_tags_ne_empty (v : PyVal) : ∀ s ∈ clean_tags v, s ≠ "" := by
  intro s hs
  cases v <;> rw [clean_tags] at hs <;> try exact absurd hs (List.not_mem_nil s)
  rename_i xs
  rw [List.mem_filterMap] at hs
  obtain ⟨x, -, hx⟩ := hs
  cases x
  case str t =>
    dsimp only at hx
    by_cases ht : t = ""
    · rw [if_pos ht] at hx
      cases hx
    · rw [if_neg ht] at hx
      cases hx
      exact ht
  all_goals
    dsimp only at hx
    cases hx

theorem clean_tags_fixpoint (ts : List String) (h : ∀ s ∈ ts, s ≠ "") :
    clean_tags (PyVal.list (ts.map PyVal.str)) = ts := by
  rw [clean_tags]
  induction ts with
  | nil => rfl
  | cons t ts ih =>
    rw [List.map_cons, List.filterMap_cons]
    dsimp only
    rw [if_neg (h t (List.mem_cons_self _ _))]
    rw [ih (fun s hs => h s (List.mem_cons_of_mem _ hs))]

/-! ### Existing-entry lookup through `map_entries_by_name` -/

theorem entries_find_nil (nm : String) : entries_find [] nm = Option.none := by
  rw [entries_find, List.findSome?_nil]

theorem entries_find_cons (item : PyVal) (rest : List PyVal) (nm : String) :
    entries_find (item :: rest) nm =
      match entry_name_match nm item with
      | some b => some b
      | Option.none => entries_find rest nm := by
  rw [entries_find, List.findSome?_cons]
  rcases h : entry_name_match nm item with - | b <;> rfl

theorem entry_name_match_dict (nm : String) (kvs : List (String × PyVal)) :
    entry_name_match nm (PyVal.dict kvs) =
      match assocGet kvs "name" with
      | some (.str s) =>
        if s = "" then Option.none else if s = nm then some kvs else Option.none
      | _ => Option.none := rfl

theorem map_entries_aux_dict (kvs : List (String × PyVal)) (rest : List PyVal)
    (acc : List (String × List (String × PyVal))) :
    map_entries_aux (PyVal.dict kvs :: rest) acc =
      match assocGet kvs "name" with
      | some (.str s) =>
        if s = "" then map_entries_aux rest acc
        else if (assocGet acc s).isSome then map_entries_aux rest acc
        else map_entries_aux rest (acc ++ [(s, kvs)])
      | _ => map_entries_aux rest acc := rfl

theorem assocGet_map_entries_aux :
    ∀ (items : List PyVal) (acc : List (String × List (String × PyVal))) (nm : String),
      assocGet (map_entries_aux items acc) nm =
        Option.or (assocGet acc nm) (entries_find items nm) := by
  intro items
  induction items with
  | nil =>
    intro acc nm
    rw [map_entries_aux, entries_find_nil, Option.or_none]
  | cons item rest ih =>
    intro acc nm
    rw [entries_find_cons]
    cases item with
    | dict kvs =>
      rw [map_entries_aux_dict, entry_name_match_dict]
      rcases hname : assocGet kvs "name" with - | v
      · exact ih acc nm
      · cases v
        case str s =>
          dsimp only
          by_cases hs : s = ""
          · rw [if_pos hs, if_pos hs]
            exact ih acc nm
          · rw [if_neg hs, if_neg hs]
            by_cases hsn : s = nm
            · subst hsn
              rw [if_pos rfl]
              by_cases hin : (assocGet acc s).isSome
              · rw [if_pos hin, ih]
                rcases ha : assocGet acc s with - | w
                · rw [ha] at hin
                  exact absurd hin (by simp)
                · rfl
              · rw [if_neg hin, ih, assocGet_append]
                rcases ha : assocGet acc s with - | w
                · rw [assocGet_cons_eq]
                  rfl
                · exfalso
                  rw [ha] at hin
                  exact hin rfl
            · rw [if_neg hsn]
              by_cases hin : (assocGet acc s).isSome
              · rw [if_pos hin, ih]
              · rw [if_neg hin, ih, assocGet_append, assocGet_cons_ne _ _ hsn]
                rw [show assocGet ([] : List (String × List (String × PyVal))) nm =
                  Option.none from rfl, Option.or_none]
        all_goals exact ih acc nm
    | none =>
      rw [show map_entries_aux (PyVal.none :: rest) acc = map_entries_aux rest acc from rfl,
        show entry_name_match nm PyVal.none = Option.none from rfl]
      exact ih acc nm
    | bool b =>
      rw [show map_entries_aux (PyVal.bool b :: rest) acc = map_entries_aux rest acc from rfl,
        show entry_name_match nm (PyVal.bool b) = Option.none from rfl]
      exact ih acc nm
    | int n =>
      rw [show map_entries_aux (PyVal.int n :: rest) acc = map_entries_aux rest acc from rfl,
        show entry_name_match nm (PyVal.int n) = Option.none from rfl]
      exact ih acc nm
    | str t =>
      rw [show map_entries_aux (PyVal.str t :: rest) acc = map_entries_aux rest acc from rfl,
        show entry_name_match nm (PyVal.str t) = Option.none from rfl]
      exact ih acc nm
    | list xs =>
      rw [show map_entries_aux (PyVal.list xs :: rest) acc = map_entries_aux rest acc from rfl,
        show entry_name_match nm (PyVal.list xs) = Option.none from rfl]
      exact ih acc nm

theorem assocGet_map_entries (items : List PyVal) (nm : String) :
    assocGet (map_entries_by_name (PyVal.list items)) nm = entries_find items nm := by
  rw [map_entries_by_name, assocGet_map_entries_aux]
  rw [show assocGet ([] : List (String × List (String × PyVal))) nm = Option.none from rfl,
    Option.none_or]

/-! ### Builder extraction lemmas -/

theorem opt_bind_eq_some {α β : Type} (o : Option α) (f : α → Option β) (b : β) :
    (o >>= f) = some b ↔ ∃ a, o = some a ∧ f a = some b :=
  Option.bind_eq_some

theorem opt_bind_some {α β : Type} (a : α) (f : α → Option β) : (some a >>= f) = f a := rfl

theorem opt_bind_none {α β : Type} (f : α → Option β) :
    ((Option.none : Option α) >>= f) = Option.none := rfl

theorem sig_draw_of_none {existing : List (String × PyVal)} (tape : List Nat)
    (h : parse_signature_like (dictGetD existing "signature") = Option.none) :
    sig_draw existing tape = generate_signature tape := by
  rw [sig_draw, h]

theorem sig_draw_of_some {existing : List (String × PyVal)} {s : String} (tape : List Nat)
    (h : parse_signature_like (dictGetD existing "signature") = some s) :
    sig_draw existing tape = some (s, tape) := by
  rw [sig_draw, h]

theorem build_file_entry_eq_some {note : FSNode} {siblings : List FSNode}
    {existing : List (String × PyVal)} {now : Int} {tape : List Nat}
    {e : List (String × PyVal)} {tape1 : List Nat} :
    build_file_entry note siblings existing now tape = some (e, tape1) ↔
      ∃ sig, sig_draw existing tape = some (sig, tape1) ∧
        e = build_file_entry_pure note siblings existing now sig := by
  rw [build_file_entry]
  constructor
  · intro h
    rw [opt_bind_eq_some] at h
    obtain ⟨⟨sig, tp⟩, h1, h2⟩ := h
    obtain ⟨h3, h4⟩ := Prod.mk.inj (Option.some.inj h2)
    subst h4
    exact ⟨sig, h1, h3.symm⟩
  · rintro ⟨sig, h1, rfl⟩
    rw [opt_bind_eq_some]
    exact ⟨(sig, tape1), h1, rfl⟩

theorem build_node_config_eq_some {dirMtime : Option Int} {folders notes siblings : List FSNode}
    {existing : List (String × PyVal)} {now : Int} {tape : List Nat}
    {cfg : List (String × PyVal)} {tape2 : List Nat} :
    build_node_config dirMtime folders notes siblings existing now tape = some (cfg, tape2) ↔
      ∃ fes tape1 sig,
        build_file_entries notes siblings (map_entries_by_name (dictGetD existing "files"))
          now tape = some (fes, tape1) ∧
        sig_draw existing tape1 = some (sig, tape2) ∧
        cfg = build_node_config_pure dirMtime folders existing now fes sig := by
  rw [build_node_config]
  constructor
  · intro h
    rw [opt_bind_eq_some] at h
    obtain ⟨⟨fes, tp1⟩, h1, h2⟩ := h
    rw [opt_bind_eq_some] at h2
    obtain ⟨⟨sig, tp2⟩, h3, h4⟩ := h2
    obtain ⟨h5, h6⟩ := Prod.mk.inj (Option.some.inj h4)
    subst h6
    exact ⟨fes, tp1, sig, h1, h3, h5.symm⟩
  · rintro ⟨fes, tape1, sig, h1, h2, rfl⟩
    rw [opt_bind_eq_some]
    refine ⟨(fes, tape1), h1, ?_⟩
    rw [opt_bind_eq_some]
    exact ⟨(sig, tape2), h2, rfl⟩

theorem build_file_entries_nil (siblings : List FSNode)
    (exf : List (String × List (String × PyVal))) (now : Int) (tape : List Nat) :
    build_file_entries [] siblings exf now tape = some ([], tape) := rfl

theorem build_file_entries_cons_eq_some {note : FSNode} {rest siblings : List FSNode}
    {exf : List (String × List (String × PyVal))} {now : Int} {tape : List Nat}
    {es : List (List (String × PyVal))} {tape2 : List Nat} :
    build_file_entries (note :: rest) siblings exf now tape = some (es, tape2) ↔
      ∃ e tape1 es',
        build_file_entry note siblings ((assocGet exf note.name).getD []) now tape =
          some (e, tape1) ∧
        build_file_entries rest siblings exf now tape1 = some (es', tape2) ∧
        es = e :: es' := by
  rw [build_file_entries]
  constructor
  · intro h
    rw [opt_bind_eq_some] at h
    obtain ⟨⟨e, tp1⟩, h1, h2⟩ := h
    rw [opt_bind_eq_some] at h2
    obtain ⟨⟨es', tp2⟩, h3, h4⟩ := h2
    obtain ⟨h5, h6⟩ := Prod.mk.inj (Option.some.inj h4)
    subst h6
    exact ⟨e, tp1, es', h1, h3, h5.symm⟩
  · rintro ⟨e, tape1, es', h1, h2, rfl⟩
    rw [opt_bind_eq_some]
    refine ⟨(e, tape1), h1, ?_⟩
    rw [opt_bind_eq_some]
    exact ⟨(es', tape2), h2, rfl⟩

theorem assocGet_file_pure_name (note : FSNode) (siblings : List FSNode)
    (existing : List (String × PyVal)) (now : Int) (sig : String) :
    assocGet (build_file_entry_pure note siblings existing now sig) "name" =
      some (PyVal.str note.name) := by
  rw [build_file_entry_pure]
  exact assocGet_cons_eq _ _ _

theorem assocGet_file_pure_id (note : FSNode) (siblings : List FSNode)
    (existing : List (String × PyVal)) (now : Int) (sig : String) :
    assocGet (build_file_entry_pure note siblings existing now sig) "id" =
      some (PyVal.str ((parse_id_like (dictGetD existing "id")).getD "0")) := by
  rw [build_file_entry_pure]
  simp only [List.cons_append]
  rw [assocGet_cons_ne _ _ (by decide)]
  exact assocGet_cons_eq _ _ _

theorem assocGet_file_pure_signature (note : FSNode) (siblings : List FSNode)
    (existing : List (String × PyVal)) (now : Int) (sig : String) :
    assocGet (build_file_entry_pure note siblings existing now sig) "signature" =
      some (PyVal.str sig) := by
  rw [build_file_entry_pure]
  simp only [List.cons_append]
  rw [assocGet_cons_ne _ _ (by decide), assocGet_cons_ne _ _ (by decide)]
  exact assocGet_cons_eq _ _ _

theorem assocGet_file_pure_created (note : FSNode) (siblings : List FSNode)
    (existing : List (String × PyVal)) (now : Int) (sig : String) :
    assocGet (build_file_entry_pure note siblings existing now sig) "created_time" =
      some (PyVal.str (get_existing_time existing "created_time" (safe_mtime note.mtime now))) := by
  rw [build_file_entry_pure]
  simp only [List.cons_append]
  rw [assocGet_cons_ne _ _ (by decide), assocGet_cons_ne _ _ (by decide),
    assocGet_cons_ne _ _ (by decide)]
  exact assocGet_cons_eq _ _ _

theorem assocGet_file_pure_modified (note : FSNode) (siblings : List FSNode)
    (existing : List (String × PyVal)) (now : Int) (sig : String) :
    assocGet (build_file_entry_pure note siblings existing now sig) "modified_time" =
      some (PyVal.str (iso_utc_from_timestamp (safe_mtime note.mtime now))) := by
  rw [build_file_entry_pure]
  simp only [List.cons_append]
  rw [assocGet_cons_ne _ _ (by decide), assocGet_cons_ne _ _ (by decide),
    assocGet_cons_ne _ _ (by decide), assocGet_cons_ne _ _ (by decide)]
  exact assocGet_cons_eq _ _ _

theorem assocGet_file_pure_tags (note : FSNode) (siblings : List FSNode)
    (existing : List (String × PyVal)) (now : Int) (sig : String) :
    assocGet (build_file_entry_pure note siblings existing now sig) "tags" =
      some (PyVal.list ((clean_tags (dictGetD existing "tags")).map PyVal.str)) := by
  rw [build_file_entry_pure]
  simp only [List.cons_append]
  rw [assocGet_cons_ne _ _ (by decide), assocGet_cons_ne _ _ (by decide),
    assocGet_cons_ne _ _ (by decide), assocGet_cons_ne _ _ (by decide),
    assocGet_cons_ne _ _ (by decide)]
  exact assocGet_cons_eq _ _ _

theorem assocGet_file_pure_attachment (note : FSNode) (siblings : List FSNode)
    (existing : List (String × PyVal)) (now : Int) (sig : String) :
    assocGet (build_file_entry_pure note siblings existing now sig) "attachment_folder" =
      some (PyVal.str (chosen_attachment_folder existing note.name siblings)) := by
  rw [build_file_entry_pure]
  simp only [List.cons_append]
  rw [assocGet_cons_ne _ _ (by decide), assocGet_cons_ne _ _ (by decide),
    assocGet_cons_ne _ _ (by decide), assocGet_cons_ne _ _ (by decide),
    assocGet_cons_ne _ _ (by decide), assocGet_cons_ne _ _ (by decide)]
  exact assocGet_cons_eq _ _ _

theorem assocGet_node_pure_version (dirMtime : Option Int) (folders : List FSNode)
    (existing : List (String × PyVal)) (now : Int)
    (fes : List (List (String × PyVal))) (sig : String) :
    assocGet (build_node_config_pure dirMtime folders existing now fes sig) "version" =
      some (version_of existing) := by
  rw [build_node_config_pure]
  exact assocGet_cons_eq _ _ _

theorem assocGet_node_pure_id (dirMtime : Option Int) (folders : List FSNode)
    (existing : List (String × PyVal)) (now : Int)
    (fes : List (List (String × PyVal))) (sig : String) :
    assocGet (build_node_config_pure dirMtime folders existing now fes sig) "id" =
      some (PyVal.str ((parse_id_like (dictGetD existing "id")).getD "0")) := by
  rw [build_node_config_pure]
  simp only [List.cons_append]
  rw [assocGet_cons_ne _ _ (by decide)]
  exact assocGet_cons_eq _ _ _

theorem assocGet_node_pure_signature (dirMtime : Option Int) (folders : List FSNode)
    (existing : List (String × PyVal)) (now : Int)
    (fes : List (List (String × PyVal))) (sig : String) :
    assocGet (build_node_config_pure dirMtime folders existing now fes sig) "signature" =
      some (PyVal.str sig) := by
  rw [build_node_config_pure]
  simp only [List.cons_append]
  rw [assocGet_cons_ne _ _ (by decide), assocGet_cons_ne _ _ (by decide)]
  exact assocGet_cons_eq _ _ _

theorem assocGet_node_pure_created (dirMtime : Option Int) (folders : List FSNode)
    (existing : List (String × PyVal)) (now : Int)
    (fes : List (List (String × PyVal))) (sig : String) :
    assocGet (build_node_config_pure dirMtime folders existing now fes sig) "created_time" =
      some (PyVal.str (get_existing_time existing "created_time" (safe_mtime dirMtime now))) := by
  rw [build_node_config_pure]
  simp only [List.cons_append]
  rw [assocGet_cons_ne _ _ (by decide), assocGet_cons_ne _ _ (by decide),
    assocGet_cons_ne _ _ (by decide)]
  exact assocGet_cons_eq _ _ _

theorem assocGet_node_pure_modified (dirMtime : Option Int) (folders : List FSNode)
    (existing : List (String × PyVal)) (now : Int)
    (fes : List (List (String × PyVal))) (sig : String) :
    assocGet (build_node_config_pure dirMtime folders existing now fes sig) "modified_time" =
      some (PyVal.str (iso_utc_from_timestamp (safe_mtime dirMtime now))) := by
  rw [build_node_config_pure]
  simp only [List.cons_append]
  rw [assocGet_cons_ne _ _ (by decide), assocGet_cons_ne _ _ (by decide),
    assocGet_cons_ne _ _ (by decide), assocGet_cons_ne _ _ (by decide)]
  exact assocGet_cons_eq _ _ _

theorem assocGet_node_pure_files (dirMtime : Option Int) (folders : List FSNode)
    (existing : List (String × PyVal)) (now : Int)
    (fes : List (List (String × PyVal))) (sig : String) :
    assocGet (build_node_config_pure dirMtime folders existing now fes sig) "files" =
      some (PyVal.list (fes.map PyVal.dict)) := by
  rw [build_node_config_pure]
  simp only [List.cons_append]
  rw [assocGet_cons_ne _ _ (by decide), assocGet_cons_ne _ _ (by decide),
    assocGet_cons_ne _ _ (by decide), assocGet_cons_ne _ _ (by decide),
    assocGet_cons_ne _ _ (by decide)]
  exact assocGet_cons_eq _ _ _

theorem assocGet_node_pure_folders (dirMtime : Option Int) (folders : List FSNode)
    (existing : List (String × PyVal)) (now : Int)
    (fes : List (List (String × PyVal))) (sig : String) :
    assocGet (build_node_config_pure dirMtime folders existing now fes sig) "folders" =
      some (PyVal.list ((folders.map fun f =>
        build_folder_entry f.name
          ((assocGet (map_entries_by_name (dictGetD existing "folders")) f.name).getD [])).map
        PyVal.dict)) := by
  rw [build_node_config_pure]
  simp only [List.cons_append]
  rw [assocGet_cons_ne _ _ (by decide), assocGet_cons_ne _ _ (by decide),
    assocGet_cons_ne _ _ (by decide), assocGet_cons_ne _ _ (by decide),
    assocGet_cons_ne _ _ (by decide), assocGet_cons_ne _ _ (by decide)]
  exact assocGet_cons_eq _ _ _

/-! ### Claim C2: signature invariant -/

/-- C2.  Every signature the tool generates is a strictly positive integer
fitting in 63 bits, rendered as a decimal string; a raw signature of `"0"`
(string form or integer zero form) is never accepted as valid from existing
state, and both `build_file_entry` and `build_node_config` then emit a
freshly generated signature instead. -/
theorem c2_signature_invariant :
    (∀ tape s rest, generate_signature tape = some (s, rest) →
      ∃ m : Nat, 0 < m ∧ m < 2 ^ 63 ∧ s = decimalStr m) ∧
    (∀ v, parse_signature_like v ≠ some "0") ∧
    parse_signature_like (PyVal.str "0") = Option.none ∧
    parse_signature_like (PyVal.int 0) = Option.none ∧
    (∀ note siblings existing now tape e tape1,
      (dictGetD existing "signature" = PyVal.str "0" ∨
        dictGetD existing "signature" = PyVal.int 0) →
      build_file_entry note siblings existing now tape = some (e, tape1) →
      ∃ s rest, generate_signature tape = some (s, rest) ∧
        assocGet e "signature" = some (PyVal.str s)) ∧
    (∀ dirMtime folders notes siblings existing now tape cfg tape2,
      (dictGetD existing "signature" = PyVal.str "0" ∨
        dictGetD existing "signature" = PyVal.int 0) →
      build_node_config dirMtime folders notes siblings existing now tape = some (cfg, tape2) →
      ∃ s tape1 rest, generate_signature tape1 = some (s, rest) ∧
        assocGet cfg "signature" = some (PyVal.str s)) := by
  refine ⟨generate_signature_spec, ?_, rfl, rfl, ?_, ?_⟩
  · intro v h
    rw [parse_signature_like] at h
    rcases hp : parse_id_like v with - | p
    · rw [hp] at h
      cases h
    · rw [hp] at h
      dsimp only at h
      by_cases h0 : p = "0"
      · rw [if_pos h0] at h
        cases h
      · rw [if_neg h0] at h
        exact h0 (by simpa using h)
  · intro note siblings existing now tape e tape1 hsig h
    have hps : parse_signature_like (dictGetD existing "signature") = Option.none := by
      rcases hsig with h0 | h0 <;> rw [h0] <;> rfl
    obtain ⟨sig, hdraw, rfl⟩ := build_file_entry_eq_some.mp h
    rw [sig_draw_of_none tape hps] at hdraw
    obtain ⟨m, hm, -, -⟩ := generate_signature_spec tape sig tape1 hdraw
    exact ⟨sig, tape1, hdraw, assocGet_file_pure_signature _ _ _ _ _⟩
  · intro dirMtime folders notes siblings existing now tape cfg tape2 hsig h
    have hps : parse_signature_like (dictGetD existing "signature") = Option.none := by
      rcases hsig with h0 | h0 <;> rw [h0] <;> rfl
    obtain ⟨fes, tape1, sig, -, hdraw, rfl⟩ := build_node_config_eq_some.mp h
    rw [sig_draw_of_none tape1 hps] at hdraw
    exact ⟨sig, tape1, tape2, hdraw, assocGet_node_pure_signature _ _ _ _ _ _⟩

/-- C2 witness: a note whose existing signature is the string `"0"` gets the
freshly generated signature `"9"` drawn from the entropy tape `[9]`. -/
theorem c2_signature_invariant_witness :
    ∃ s rest, generate_signature [9] = some (s, rest) ∧
      assocGet (build_file_entry_pure (FSNode.file "a.md" (some 0)) []
          [("signature", PyVal.str "0")] 0 "9") "signature" = some (PyVal.str s) :=
  c2_signature_invariant.2.2.2.2.1 (FSNode.file "a.md" (some 0)) []
    [("signature", PyVal.str "0")] 0 [9] _ [] (Or.inl rfl) rfl

/-! ### Claim C3: id parsing and normalization -/

/-- C3 counterexample: a Python boolean passes the `isinstance(value, int)`
test, so `parse_id_like` accepts `True` — which the claim says should be
rejected (it is neither a non-negative integer in the claim's sense nor a
digit string) — and normalizes it to `"True"`, which is not a decimal
string. -/
theorem c3_id_parsing_counterexample :
    parse_id_like (PyVal.bool true) = some "True" ∧
      parse_id_like (PyVal.bool false) = some "False" ∧
      isDigitString "True" = false ∧ ("True" : String) ≠ "1" := by
  refine ⟨rfl, rfl, by decide, by decide⟩

/-- C3 amended: a raw value is accepted exactly when it is a non-negative
integer (normalized by `str()` to decimal), a *boolean* (a Python `int`
instance, normalized by `str()` to `"True"`/`"False"`), or a string that
strips to a non-empty run of decimal digits (normalized to the stripped
string); everything else is rejected, and the id written by
`build_file_entry` / `build_node_config` is the parsed value or the default
`"0"` — the tool never invents a fresh id. -/
theorem c3_id_parsing_amended :
    (∀ n : Int, 0 ≤ n → parse_id_like (PyVal.int n) = some (intStr n)) ∧
    (∀ n : Int, n < 0 → parse_id_like (PyVal.int n) = Option.none) ∧
    (∀ b, parse_id_like (PyVal.bool b) = some (if b then "True" else "False")) ∧
    (∀ s, parse_id_like (PyVal.str s) =
      (if isDigitString (pyStrip s) then some (pyStrip s) else Option.none)) ∧
    parse_id_like PyVal.none = Option.none ∧
    (∀ xs, parse_id_like (PyVal.list xs) = Option.none) ∧
    (∀ kvs, parse_id_like (PyVal.dict kvs) = Option.none) ∧
    (∀ note siblings existing now tape e tape1,
      build_file_entry note siblings existing now tape = some (e, tape1) →
      assocGet e "id" =
        some (PyVal.str ((parse_id_like (dictGetD existing "id")).getD "0"))) ∧
    (∀ dirMtime folders notes siblings existing now tape cfg tape2,
      build_node_config dirMtime folders notes siblings existing now tape = some (cfg, tape2) →
      assocGet cfg "id" =
        some (PyVal.str ((parse_id_like (dictGetD existing "id")).getD "0"))) := by
  refine ⟨?_, ?_, ?_, ?_, rfl, fun xs => rfl, fun kvs => rfl, ?_, ?_⟩
  · intro n hn
    rw [parse_id_like, if_pos hn]
  · intro n hn
    rw [parse_id_like, if_neg (by omega)]
  · intro b
    rfl
  · intro s
    rfl
  · intro note siblings existing now tape e tape1 h
    obtain ⟨sig, -, rfl⟩ := build_file_entry_eq_some.mp h
    exact assocGet_file_pure_id _ _ _ _ _
  · intro dirMtime folders notes siblings existing now tape cfg tape2 h
    obtain ⟨fes, tape1, sig, -, -, rfl⟩ := build_node_config_eq_some.mp h
    exact assocGet_node_pure_id _ _ _ _ _ _

/-- C3 witness: an existing id `" 42 "` strips to `"42"` and is written
verbatim; an absent id defaults to `"0"`. -/
theorem c3_id_parsing_amended_witness :
    assocGet (build_file_entry_pure (FSNode.file "a.md" (some 0)) []
        [("id", PyVal.str " 42 "), ("signature", PyVal.str "7")] 0 "7") "id" =
      some (PyVal.str "42") ∧
    assocGet (build_file_entry_pure (FSNode.file "b.md" (some 0)) []
        [("signature", PyVal.str "7")] 0 "7") "id" = some (PyVal.str "0") := by
  constructor
  · exact (c3_id_parsing_amended.2.2.2.2.2.2.2.1 (FSNode.file "a.md" (some 0)) []
      [("id", PyVal.str " 42 "), ("signature", PyVal.str "7")] 0 [] _ [] rfl).trans (by rfl)
  · exact (c3_id_parsing_amended.2.2.2.2.2.2.2.1 (FSNode.file "b.md" (some 0)) []
      [("signature", PyVal.str "7")] 0 [] _ [] rfl).trans (by rfl)

/-! ### Claim C8: loader tolerance and dedup -/

/-- C8.  Loading the sidecar yields the empty mapping for a missing file, an
unreadable/unparseable file, and any parse result that is not a dict; a
parsed dict is returned as-is.  Indexing prior `files`/`folders` entries by
`name` keeps exactly the first entry per name: a lookup in
`map_entries_by_name` finds the first well-named dict entry, and a non-list
input yields an empty index. -/
theorem c8_loader_tolerance :
    load_existing_config SidecarFile.missing = [] ∧
    load_existing_config SidecarFile.invalid = [] ∧
    (∀ v, (∀ kvs, v ≠ PyVal.dict kvs) →
      load_existing_config (SidecarFile.content v) = []) ∧
    (∀ kvs, load_existing_config (SidecarFile.content (PyVal.dict kvs)) = kvs) ∧
    (∀ items nm,
      assocGet (map_entries_by_name (PyVal.list items)) nm = entries_find items nm) ∧
    (∀ v, (∀ items, v ≠ PyVal.list items) → map_entries_by_name v = []) := by
  refine ⟨rfl, rfl, ?_, fun kvs => rfl, assocGet_map_entries, ?_⟩
  · intro v hv
    cases v
    case dict kvs => exact absurd rfl (hv kvs)
    all_goals rfl
  · intro v hv
    cases v
    case list xs => exact absurd rfl (hv xs)
    all_goals rfl

/-- C8 witness: of two entries both named `"a.md"`, the lookup returns the
first; a non-dict parse result loads as the empty mapping. -/
theorem c8_loader_tolerance_witness :
    assocGet (map_entries_by_name (PyVal.list
        [PyVal.dict [("name", PyVal.str "a.md"), ("id", PyVal.str "1")],
         PyVal.dict [("name", PyVal.str "a.md"), ("id", PyVal.str "2")]])) "a.md" =
      some [("name", PyVal.str "a.md"), ("id", PyVal.str "1")] ∧
    load_existing_config (SidecarFile.content (PyVal.int 5)) = [] := by
  constructor
  · exact (c8_loader_tolerance.2.2.2.2.1
      [PyVal.dict [("name", PyVal.str "a.md"), ("id", PyVal.str "1")],
       PyVal.dict [("name", PyVal.str "a.md"), ("id", PyVal.str "2")]] "a.md").trans (by rfl)
  · exact c8_loader_tolerance.2.2.1 (PyVal.int 5) (fun kvs h => by cases h)

/-! ### Claim C10: boolean `version` passes the `isinstance` test -/

/-- C10.  Because Python booleans are `int` instances, an existing sidecar
whose `version` is a boolean has that boolean carried verbatim into the
output config rather than being replaced by the default version constant,
so the written `version` value is not an integer. -/
theorem c10_version_bool_passthrough :
    ∀ dirMtime folders notes siblings existing now tape cfg tape2 b,
      dictGetD existing "version" = PyVal.bool b →
      build_node_config dirMtime folders notes siblings existing now tape = some (cfg, tape2) →
      assocGet cfg "version" = some (PyVal.bool b) ∧
        PyVal.bool b ≠ PyVal.int DEFAULT_CONFIG_VERSION ∧
        ∀ n : Int, PyVal.bool b ≠ PyVal.int n := by
  intro dirMtime folders notes siblings existing now tape cfg tape2 b hv h
  obtain ⟨fes, tape1, sig, -, -, rfl⟩ := build_node_config_eq_some.mp h
  refine ⟨?_, ?_, ?_⟩
  · rw [assocGet_node_pure_version, version_of, hv]
  · intro h0
    cases h0
  · intro n h0
    cases h0

/-- C10 witness: a sidecar `{"version": true, "signature": "5"}` rebuilds to
a config whose `version` is the boolean `true`, not the integer default. -/
theorem c10_version_bool_passthrough_witness :
    assocGet (build_node_config_pure (some 0) []
        [("version", PyVal.bool true), ("signature", PyVal.str "5")] 0 [] "5") "version" =
      some (PyVal.bool true) ∧
      PyVal.bool true ≠ PyVal.int DEFAULT_CONFIG_VERSION :=
  ⟨(c10_version_bool_passthrough (some 0) [] [] []
      [("version", PyVal.bool true), ("signature", PyVal.str "5")] 0 [] _ [] true rfl rfl).1,
   (c10_version_bool_passthrough (some 0) [] [] []
      [("version", PyVal.bool true), ("signature", PyVal.str "5")] 0 [] _ [] true rfl rfl).2.1⟩

/-! ### String building helpers for the timestamp format -/

theorem str_mk_eq {l : List Char} {s : String} (h : l = s.data) : String.mk l = s := by
  cases s
  exact congrArg String.mk h

theorem replace_offset_z_append (t : String) :
    replace_offset_z (t ++ "+00:00") = t ++ "Z" := by
  rw [replace_offset_z]
  have hsuf : "+00:00".data.isSuffixOf (t ++ "+00:00").data = true := by
    rw [String.data_append, List.isSuffixOf_iff_suffix]
    exact List.suffix_append _ _
  rw [if_pos hsuf]
  apply str_mk_eq
  rw [String.data_append, String.data_append]
  have hlen : (t.data ++ "+00:00".data).length - 6 = t.data.length := by
    rw [List.length_append]
    rfl
  rw [hlen, List.take_left' rfl]

theorem iso_utc_eq_civil (ts : Int) :
    iso_utc_from_timestamp ts = civilDateTimeStr (ts.fdiv 1000000) ++ "Z" := by
  rw [iso_utc_from_timestamp, isoformat_utc, replace_offset_z_append]

/-! ### Claim C5: deterministic case-insensitive ordering -/

/-- C5.  Both Scanner output lists are sorted by the case-insensitive
(casefolded, code-point lexicographic) comparison of names, and a directory
holding exactly the notes `B.md`, `a.md`, `C.md` yields the `files` order
`a.md, B.md, C.md`. -/
theorem c5_scanner_ordering :
    (∀ children : List FSNode,
      (iter_children children).1.Pairwise (fun a b => nodeCaseLe a b = true) ∧
      (iter_children children).2.Pairwise (fun a b => nodeCaseLe a b = true)) ∧
    (iter_children [FSNode.file "B.md" Option.none, FSNode.file "a.md" Option.none,
        FSNode.file "C.md" Option.none]).2.map FSNode.name = ["a.md", "B.md", "C.md"] := by
  constructor
  · intro children
    constructor <;>
      exact sorted_stableSortBy
        (fun a b c hab hbc => caseLe_trans a.name b.name c.name hab hbc)
        (fun a b => caseLe_total a.name b.name) _
  · decide

/-! ### Claim C6: timestamp policy -/

/-- C6.  `created_time` keeps an existing non-empty string and otherwise is
derived from the filesystem modification time (UTC, second precision, `Z`
suffix substituted for the `+00:00` offset by `replace`); an unreadable
stat substitutes the current wall clock without failing; `modified_time` is
always the freshly derived value, never preserved, in both file entries and
node configs. -/
theorem c6_timestamp_policy :
    (∀ existing key ts s, assocGet existing key = some (PyVal.str s) → s ≠ "" →
      get_existing_time existing key ts = s) ∧
    (∀ existing key ts, assocGet existing key = Option.none →
      get_existing_time existing key ts = iso_utc_from_timestamp ts) ∧
    (∀ existing key ts, assocGet existing key = some (PyVal.str "") →
      get_existing_time existing key ts = iso_utc_from_timestamp ts) ∧
    (∀ existing key ts v, assocGet existing key = some v → (∀ s, v ≠ PyVal.str s) →
      get_existing_time existing key ts = iso_utc_from_timestamp ts) ∧
    (∀ now : Int, safe_mtime Option.none now = now) ∧
    (∀ (m now : Int), safe_mtime (some m) now = m) ∧
    (∀ ts : Int, isoformat_utc (ts.fdiv 1000000) =
        civilDateTimeStr (ts.fdiv 1000000) ++ "+00:00" ∧
      iso_utc_from_timestamp ts = civilDateTimeStr (ts.fdiv 1000000) ++ "Z") ∧
    (∀ note siblings existing now tape e tape1,
      build_file_entry note siblings existing now tape = some (e, tape1) →
      assocGet e "modified_time" =
        some (PyVal.str (iso_utc_from_timestamp (safe_mtime note.mtime now))) ∧
      assocGet e "created_time" =
        some (PyVal.str (get_existing_time existing "created_time"
          (safe_mtime note.mtime now)))) ∧
    (∀ dirMtime folders notes siblings existing now tape cfg tape2,
      build_node_config dirMtime folders notes siblings existing now tape = some (cfg, tape2) →
      assocGet cfg "modified_time" =
        some (PyVal.str (iso_utc_from_timestamp (safe_mtime dirMtime now))) ∧
      assocGet cfg "created_time" =
        some (PyVal.str (get_existing_time existing "created_time"
          (safe_mtime dirMtime now)))) := by
  refine ⟨?_, ?_, ?_, ?_, fun now => rfl, fun m now => rfl, ?_, ?_, ?_⟩
  · intro existing key ts s h hs
    exact get_existing_time_of_str ts h hs
  · intro existing key ts h
    rw [get_existing_time, h]
  · intro existing key ts h
    rw [get_existing_time, h]
    dsimp only
    rw [if_pos rfl]
  · intro existing key ts v h hv
    rw [get_existing_time, h]
    cases v
    case str s => exact absurd rfl (hv s)
    all_goals rfl
  · intro ts
    exact ⟨rfl, iso_utc_eq_civil ts⟩
  · intro note siblings existing now tape e tape1 h
    obtain ⟨sig, -, rfl⟩ := build_file_entry_eq_some.mp h
    exact ⟨assocGet_file_pure_modified _ _ _ _ _, assocGet_file_pure_created _ _ _ _ _⟩
  · intro dirMtime folders notes siblings existing now tape cfg tape2 h
    obtain ⟨fes, tape1, sig, -, -, rfl⟩ := build_node_config_eq_some.mp h
    exact ⟨assocGet_node_pure_modified _ _ _ _ _ _, assocGet_node_pure_created _ _ _ _ _ _⟩

/-- C6 witness: an entry for a note whose stat is unreadable (mtime `none`)
under wall clock `0` carries the derived `1970-01-01T00:00:00Z` in both time
fields even though the existing `modified_time` said otherwise; a preserved
non-empty `created_time` survives verbatim. -/
theorem c6_timestamp_policy_witness :
    assocGet (build_file_entry_pure (FSNode.file "a.md" Option.none) []
        [("modified_time", PyVal.str "2001-01-01T00:00:00Z"), ("signature", PyVal.str "5")]
        0 "5") "modified_time" = some (PyVal.str "1970-01-01T00:00:00Z") ∧
    assocGet (build_file_entry_pure (FSNode.file "a.md" Option.none) []
        [("created_time", PyVal.str "2001-01-01T00:00:00Z"), ("signature", PyVal.str "5")]
        0 "5") "created_time" = some (PyVal.str "2001-01-01T00:00:00Z") := by
  constructor
  · exact ((c6_timestamp_policy.2.2.2.2.2.2.2.1 (FSNode.file "a.md" Option.none) []
      [("modified_time", PyVal.str "2001-01-01T00:00:00Z"), ("signature", PyVal.str "5")]
      0 [] _ [] rfl).1).trans (by rfl)
  · exact ((c6_timestamp_policy.2.2.2.2.2.2.2.1 (FSNode.file "a.md" Option.none) []
      [("created_time", PyVal.str "2001-01-01T00:00:00Z"), ("signature", PyVal.str "5")]
      0 [] _ [] rfl).2).trans (by rfl)

/-! ### Claim C7: attachment inference -/

/-- C7 counterexample: with `foo_assets/vx_attachments/{a1,a2}` and
`foo_assets/_v_attachments/b1`, the recognized root `vx_attachments` exists
and holds *two* candidate sub-directories, which the claim says yields the
empty string; the code instead falls through to the next candidate root and
returns `"b1"` (the claim-as-written function returns `""` here). -/
theorem c7_attachment_inference_counterexample :
    infer_attachment_folder_from_assets "foo.md"
      [FSNode.dir "foo_assets" Option.none SidecarFile.missing
        [FSNode.dir "vx_attachments" Option.none SidecarFile.missing
          [FSNode.dir "a1" Option.none SidecarFile.missing [],
           FSNode.dir "a2" Option.none SidecarFile.missing []],
         FSNode.dir "_v_attachments" Option.none SidecarFile.missing
          [FSNode.dir "b1" Option.none SidecarFile.missing []]]] = "b1" ∧
    infer_attachment_folder_claim "foo.md"
      [FSNode.dir "foo_assets" Option.none SidecarFile.missing
        [FSNode.dir "vx_attachments" Option.none SidecarFile.missing
          [FSNode.dir "a1" Option.none SidecarFile.missing [],
           FSNode.dir "a2" Option.none SidecarFile.missing []],
         FSNode.dir "_v_attachments" Option.none SidecarFile.missing
          [FSNode.dir "b1" Option.none SidecarFile.missing []]]] = "" ∧
    ("b1" : String) ≠ "" := by
  refine ⟨by decide, by decide, by decide⟩

/-- C7 amended: when a note's existing `attachment_folder` is a non-empty
string it is preserved; when it is absent, empty, or not a string, the
inferred value is used, where the candidate roots are tried *in order*
(`vx_attachments`, then `_v_attachments`) and the first root that exists
with exactly one sub-directory supplies the name — a root that is missing
*or whose sub-directory count differs from one* falls through to the next
candidate; if no candidate qualifies (including when no `<stem>_assets`
sibling exists), the result is the empty string.  The specification's
single-root scenarios hold as stated. -/
theorem c7_attachment_inference_amended :
    (∀ note siblings existing now tape e tape1 s,
      assocGet existing "attachment_folder" = some (PyVal.str s) → s ≠ "" →
      build_file_entry note siblings existing now tape = some (e, tape1) →
      assocGet e "attachment_folder" = some (PyVal.str s)) ∧
    (∀ note siblings existing now tape e tape1,
      existing_attachment_folder existing = "" →
      build_file_entry note siblings existing now tape = some (e, tape1) →
      assocGet e "attachment_folder" =
        some (PyVal.str (infer_attachment_folder_from_assets note.name siblings))) ∧
    (∀ noteName siblings,
      find_dir_children siblings (pyStem noteName ++ "_assets") = Option.none →
      infer_attachment_folder_from_assets noteName siblings = "") ∧
    (∀ assetsKids, infer_from_roots assetsKids [] = "") ∧
    (∀ assetsKids rootName rest,
      find_dir_children assetsKids rootName = Option.none →
      infer_from_roots assetsKids (rootName :: rest) = infer_from_roots assetsKids rest) ∧
    (∀ assetsKids rootName rest rootKids x,
      find_dir_children assetsKids rootName = some rootKids →
      stableSortBy caseLe ((rootKids.filter FSNode.isDir).map FSNode.name) = [x] →
      infer_from_roots assetsKids (rootName :: rest) = x) ∧
    (∀ assetsKids rootName rest rootKids,
      find_dir_children assetsKids rootName = some rootKids →
      (stableSortBy caseLe ((rootKids.filter FSNode.isDir).map FSNode.name)).length ≠ 1 →
      infer_from_roots assetsKids (rootName :: rest) = infer_from_roots assetsKids rest) ∧
    infer_attachment_folder_from_assets "foo.md"
      [FSNode.file "foo.md" (some 0),
       FSNode.dir "foo_assets" Option.none SidecarFile.missing
        [FSNode.dir "vx_attachments" Option.none SidecarFile.missing
          [FSNode.dir "img1" Option.none SidecarFile.missing []]]] = "img1" ∧
    infer_attachment_folder_from_assets "foo.md"
      [FSNode.file "foo.md" (some 0),
       FSNode.dir "foo_assets" Option.none SidecarFile.missing
        [FSNode.dir "vx_attachments" Option.none SidecarFile.missing
          [FSNode.dir "img1" Option.none SidecarFile.missing [],
           FSNode.dir "img2" Option.none SidecarFile.missing []]]] = "" := by
  refine ⟨?_, ?_, ?_, fun assetsKids => rfl, ?_, ?_, ?_, by decide, by decide⟩
  · intro note siblings existing now tape e tape1 s hs hne h
    obtain ⟨sig, -, rfl⟩ := build_file_entry_eq_some.mp h
    rw [assocGet_file_pure_attachment, chosen_attachment_folder]
    have hea : existing_attachment_folder existing = s := by
      rw [existing_attachment_folder, hs]
    rw [hea, if_neg hne]
  · intro note siblings existing now tape e tape1 hea h
    obtain ⟨sig, -, rfl⟩ := build_file_entry_eq_some.mp h
    rw [assocGet_file_pure_attachment, chosen_attachment_folder, hea, if_pos rfl]
  · intro noteName siblings h
    rw [infer_attachment_folder_from_assets, h]
  · intro assetsKids rootName rest h
    rw [infer_from_roots, h]
  · intro assetsKids rootName rest rootKids x h hsort
    rw [infer_from_roots, h]
    dsimp only
    rw [hsort]
  · intro assetsKids rootName rest rootKids h hlen
    rw [infer_from_roots, h]
    dsimp only
    rcases hl : stableSortBy caseLe ((rootKids.filter FSNode.isDir).map FSNode.name)
      with - | ⟨x, xs⟩
    · rfl
    · rcases xs with - | ⟨y, ys⟩
      · exfalso
        rw [hl] at hlen
        exact hlen rfl
      · rfl

/-- C7 witness: an existing non-empty `attachment_folder` is preserved, and
an empty one is replaced by the inferred `"img1"`. -/
theorem c7_attachment_inference_amended_witness :
    assocGet (build_file_entry_pure (FSNode.file "foo.md" (some 0)) []
        [("attachment_folder", PyVal.str "keep"), ("signature", PyVal.str "5")] 0 "5")
      "attachment_folder" = some (PyVal.str "keep") ∧
    assocGet (build_file_entry_pure (FSNode.file "foo.md" (some 0))
        [FSNode.dir "foo_assets" Option.none SidecarFile.missing
          [FSNode.dir "vx_attachments" Option.none SidecarFile.missing
            [FSNode.dir "img1" Option.none SidecarFile.missing []]]]
        [("signature", PyVal.str "5")] 0 "5")
      "attachment_folder" = some (PyVal.str "img1") := by
  constructor
  · exact c7_attachment_inference_amended.1 (FSNode.file "foo.md" (some 0)) []
      [("attachment_folder", PyVal.str "keep"), ("signature", PyVal.str "5")] 0 [] _ []
      "keep" rfl (by decide) rfl
  · exact (c7_attachment_inference_amended.2.1 (FSNode.file "foo.md" (some 0))
      [FSNode.dir "foo_assets" Option.none SidecarFile.missing
        [FSNode.dir "vx_attachments" Option.none SidecarFile.missing
          [FSNode.dir "img1" Option.none SidecarFile.missing []]]]
      [("signature", PyVal.str "5")] 0 [] _ [] rfl rfl).trans (by rfl)

/-! ### Distinct-name lemmas -/

theorem distinctNames_iff_nodup (l : List String) : distinctNames l = true ↔ l.Nodup := by
  induction l with
  | nil => simp [distinctNames]
  | cons n rest ih =>
    rw [distinctNames, List.nodup_cons, Bool.and_eq_true, ih]
    constructor
    · rintro ⟨h1, h2⟩
      refine ⟨?_, h2⟩
      intro hmem
      rw [Bool.not_eq_true', ← Bool.not_eq_true] at h1
      exact h1 (by simpa using List.elem_eq_true_of_mem hmem)
    · rintro ⟨h1, h2⟩
      refine ⟨?_, h2⟩
      rw [Bool.not_eq_true']
      by_contra hc
      rw [Bool.not_eq_false] at hc
      exact h1 (by simpa using hc)

theorem nodup_names_filter_sort (children : List FSNode) (p : FSNode → Bool)
    (h : (children.map FSNode.name).Nodup) :
    ((stableSortBy nodeCaseLe (children.filter p)).map FSNode.name).Nodup := by
  have hperm : ((stableSortBy nodeCaseLe (children.filter p)).map FSNode.name).Perm
      ((children.filter p).map FSNode.name) :=
    (stableSortBy_perm nodeCaseLe (children.filter p)).map FSNode.name
  refine hperm.nodup_iff.mpr ?_
  exact ((List.filter_sublist children).map FSNode.name).nodup h

theorem mem_sort_filter {children : List FSNode} {p : FSNode → Bool} {c : FSNode} :
    c ∈ stableSortBy nodeCaseLe (children.filter p) ↔ c ∈ children ∧ p c = true := by
  rw [mem_stableSortBy, List.mem_filter]

theorem assocGet_self_pairs {folders : List FSNode} {c : FSNode}
    (hc : c ∈ folders) (hnodup : (folders.map FSNode.name).Nodup) :
    assocGet (folders.map fun f => (f.name, f)) c.name = some c := by
  induction folders with
  | nil => exact absurd hc (List.not_mem_nil c)
  | cons f rest ih =>
    rw [List.map_cons, List.nodup_cons] at hnodup
    rw [List.map_cons]
    rcases List.mem_cons.mp hc with rfl | hc'
    · exact assocGet_cons_eq _ _ _
    · have hne : f.name ≠ c.name := by
        intro he
        exact hnodup.1 (he ▸ List.mem_map_of_mem FSNode.name hc')
      rw [assocGet_cons_ne _ _ hne]
      exact ih hc' hnodup.2

theorem map_eq_self_of_eq {α : Type} {l : List α} {f : α → α}
    (h : ∀ c ∈ l, f c = c) : l.map f = l := by
  induction l with
  | nil => rfl
  | cons a l ih =>
    rw [List.map_cons, h a (List.mem_cons_self _ _), ih (fun c hc => h c (List.mem_cons_of_mem _ hc))]

theorem uniq_children_mem :
    ∀ {cs : List FSNode}, uniq_children cs = true → ∀ c ∈ cs, uniq_tree c = true := by
  intro cs h c hc
  induction cs with
  | nil => exact absurd hc (List.not_mem_nil c)
  | cons d rest ihl =>
    rw [uniq_children, Bool.and_eq_true] at h
    rcases List.mem_cons.mp hc with rfl | hc'
    · exact h.1
    · exact ihl h.2 hc'

theorem clean_children_mem :
    ∀ {cs : List FSNode}, clean_children cs = true → ∀ c ∈ cs, clean_tree c = true := by
  intro cs h c hc
  induction cs with
  | nil => exact absurd hc (List.not_mem_nil c)
  | cons d rest ihl =>
    rw [clean_children, Bool.and_eq_true] at h
    rcases List.mem_cons.mp hc with rfl | hc'
    · exact h.1
    · exact ihl h.2 hc'

/-! ### Orchestrator extraction lemmas -/

theorem rebuild_zero (t : FSNode) (dry vb : Bool) (path : String) (now : Int) (tape : List Nat) :
    rebuild_recursively 0 t dry vb path now tape = Option.none := rfl

theorem rebuild_file (fuel : Nat) (nm : String) (m : Option Int) (dry vb : Bool)
    (path : String) (now : Int) (tape : List Nat) :
    rebuild_recursively (fuel + 1) (.file nm m) dry vb path now tape = Option.none := by
  rw [rebuild_recursively]

theorem rebuild_symlink (fuel : Nat) (nm : String) (dry vb : Bool)
    (path : String) (now : Int) (tape : List Nat) :
    rebuild_recursively (fuel + 1) (.symlink nm) dry vb path now tape = Option.none := by
  rw [rebuild_recursively]

theorem rebuild_children_zero (fs : List FSNode) (dry vb : Bool) (path : String)
    (now : Int) (tape : List Nat) :
    rebuild_children 0 fs dry vb path now tape = Option.none := rfl

theorem rebuild_children_nil (fuel : Nat) (dry vb : Bool) (path : String)
    (now : Int) (tape : List Nat) :
    rebuild_children (fuel + 1) [] dry vb path now tape = some ⟨[], 0, 0, 0, [], tape⟩ := by
  rw [rebuild_children]

theorem rebuild_dir_eq_some {fuel : Nat} {name : String} {mtime : Option Int}
    {sidecar : SidecarFile} {children : List FSNode} {dry vb : Bool} {path : String}
    {now : Int} {tape : List Nat} {out : RunOut} :
    rebuild_recursively (fuel + 1) (.dir name mtime sidecar children) dry vb path now tape =
        some out ↔
      ∃ cfg tape1 sub,
        build_node_config mtime (iter_children children).1 (iter_children children).2 children
          (load_existing_config sidecar) now tape = some (cfg, tape1) ∧
        rebuild_children fuel (iter_children children).1 dry vb path now tape1 = some sub ∧
        out = ⟨1 + sub.configs,
          (iter_children children).1.length + sub.folderCount,
          (iter_children children).2.length + sub.noteCount,
          (if vb || dry then
            [report_line path (iter_children children).1.length
              (iter_children children).2.length] else []) ++ sub.reports,
          .dir name mtime
            (if dry then sidecar else SidecarFile.content (.dict cfg))
            (children.map fun c =>
              if includedDir c then (assocGet sub.pairs c.name).getD c else c),
          sub.tape⟩ := by
  rw [rebuild_recursively]
  constructor
  · intro h
    rw [opt_bind_eq_some] at h
    obtain ⟨⟨cfg, tape1⟩, h1, h2⟩ := h
    rw [opt_bind_eq_some] at h2
    obtain ⟨sub, h3, h4⟩ := h2
    exact ⟨cfg, tape1, sub, h1, h3, (Option.some.inj h4).symm⟩
  · rintro ⟨cfg, tape1, sub, h1, h2, rfl⟩
    rw [opt_bind_eq_some]
    refine ⟨(cfg, tape1), h1, ?_⟩
    rw [opt_bind_eq_some]
    exact ⟨sub, h2, rfl⟩

theorem rebuild_children_cons_eq_some {fuel : Nat} {f : FSNode} {rest : List FSNode}
    {dry vb : Bool} {path : String} {now : Int} {tape : List Nat} {out : ChildrenOut} :
    rebuild_children (fuel + 1) (f :: rest) dry vb path now tape = some out ↔
      ∃ o1 o2,
        rebuild_recursively fuel f dry vb (path ++ "/" ++ f.name) now tape = some o1 ∧
        rebuild_children fuel rest dry vb path now o1.tape = some o2 ∧
        out = ⟨(f.name, o1.tree) :: o2.pairs, o1.configs + o2.configs,
          o1.folderCount + o2.folderCount, o1.noteCount + o2.noteCount,
          o1.reports ++ o2.reports, o2.tape⟩ := by
  rw [rebuild_children]
  constructor
  · intro h
    rw [opt_bind_eq_some] at h
    obtain ⟨o1, h1, h2⟩ := h
    rw [opt_bind_eq_some] at h2
    obtain ⟨o2, h3, h4⟩ := h2
    exact ⟨o1, o2, h1, h3, (Option.some.inj h4).symm⟩
  · rintro ⟨o1, o2, h1, h2, rfl⟩
    rw [opt_bind_eq_some]
    refine ⟨o1, h1, ?_⟩
    rw [opt_bind_eq_some]
    exact ⟨o2, h2, rfl⟩

/-! ### Dry run versus wet run -/

/-- A dry run performs the same scan, reconcile, entropy use, counting, and
reporting as a verbose wet run, but returns the input tree untouched. -/
theorem dry_wet_runs : ∀ fuel : Nat,
    (∀ t vb path now tape, uniq_tree t = true →
      rebuild_recursively fuel t true vb path now tape =
        (rebuild_recursively fuel t false true path now tape).map
          (fun o => ⟨o.configs, o.folderCount, o.noteCount, o.reports, t, o.tape⟩)) ∧
    (∀ fs vb path now tape, (∀ f ∈ fs, uniq_tree f = true) →
      rebuild_children fuel fs true vb path now tape =
        (rebuild_children fuel fs false true path now tape).map
          (fun o => ⟨fs.map (fun f => (f.name, f)), o.configs, o.folderCount, o.noteCount,
            o.reports, o.tape⟩)) := by
  intro fuel
  induction fuel with
  | zero =>
    constructor
    · intro t vb path now tape _
      rfl
    · intro fs vb path now tape _
      rfl
  | succ fuel ih =>
    obtain ⟨ihP, ihQ⟩ := ih
    constructor
    · intro t vb path now tape ht
      cases t with
      | file nm m => rw [rebuild_file, rebuild_file]; rfl
      | symlink nm => rw [rebuild_symlink, rebuild_symlink]; rfl
      | dir name mtime sc cs =>
        rw [uniq_tree, Bool.and_eq_true] at ht
        obtain ⟨hdist, hchildren⟩ := ht
        have hfolders : ∀ f ∈ (iter_children cs).1, uniq_tree f = true := by
          intro f hf
          exact uniq_children_mem hchildren f (mem_sort_filter.mp hf).1
        rw [rebuild_recursively, rebuild_recursively]
        rcases hb : build_node_config mtime (iter_children cs).1 (iter_children cs).2 cs
            (load_existing_config sc) now tape with - | ⟨cfg, tape1⟩
        · rfl
        · rw [opt_bind_some, opt_bind_some]
          dsimp only
          rw [ihQ (iter_children cs).1 vb path now tape1 hfolders]
          rcases hcw : rebuild_children fuel (iter_children cs).1 false true path now tape1
            with - | sub
          · rfl
          · simp only [Option.map_some', opt_bind_some]
            have hself : ∀ c ∈ cs, (fun c =>
                if includedDir c then
                  (assocGet ((iter_children cs).1.map fun f => (f.name, f)) c.name).getD c
                else c) c = c := by
              intro c hc
              dsimp only
              by_cases hincl : includedDir c
              · rw [if_pos hincl]
                rw [iter_children]
                rw [assocGet_self_pairs (mem_sort_filter.mpr ⟨hc, hincl⟩)
                  (nodup_names_filter_sort cs includedDir
                    ((distinctNames_iff_nodup _).mp hdist))]
                rfl
              · rw [if_neg hincl]
            rw [map_eq_self_of_eq hself]
            simp only [Bool.or_true, Bool.true_or, if_true]
    · intro fs vb path now tape hfs
      induction fs with
      | nil =>
        rw [rebuild_children_nil, rebuild_children_nil]
        rfl
      | cons f rest ihl =>
        rw [rebuild_children, rebuild_children]
        rw [ihP f vb (path ++ "/" ++ f.name) now tape (hfs f (List.mem_cons_self _ _))]
        rcases hfw : rebuild_recursively fuel f false true (path ++ "/" ++ f.name) now tape
          with - | o1
        · rfl
        · simp only [Option.map_some', opt_bind_some]
          rw [ihQ rest vb path now o1.tape (fun g hg => hfs g (List.mem_cons_of_mem _ hg))]
          rcases hrw : rebuild_children fuel rest false true path now o1.tape with - | o2
          · rfl
          · simp only [Option.map_some', opt_bind_some]
            rfl

/-! ### Claim C9: dry-run frame property -/

/-- C9.  With the no-write flag the full scan and reconcile still runs —
the result equals the verbose wet run's counts, entropy use, and
per-directory report lines — but the returned tree is the input tree, so
every on-disk `vx.json` is unchanged; on a directory with one sub-folder
and two notes the dry run prints `folders=1 md=2`. -/
theorem c9_dry_run_frame :
    (∀ fuel t vb path now tape out,
      uniq_tree t = true →
      rebuild_recursively fuel t true vb path now tape = some out →
      out.tree = t) ∧
    (∀ fuel t vb path now tape,
      uniq_tree t = true →
      rebuild_recursively fuel t true vb path now tape =
        (rebuild_recursively fuel t false true path now tape).map
          (fun o => ⟨o.configs, o.folderCount, o.noteCount, o.reports, t, o.tape⟩)) ∧
    (∃ out,
      rebuild_recursively 4
        (FSNode.dir "nb" (some 0) SidecarFile.missing
          [FSNode.dir "Sub" (some 0) SidecarFile.missing [],
           FSNode.file "a.md" (some 0), FSNode.file "b.md" (some 0)])
        true false "nb" 0 [1, 2, 3, 4] = some out ∧
      out.tree =
        FSNode.dir "nb" (some 0) SidecarFile.missing
          [FSNode.dir "Sub" (some 0) SidecarFile.missing [],
           FSNode.file "a.md" (some 0), FSNode.file "b.md" (some 0)] ∧
      out.reports.head? = some "nb/vx.json  folders=1 md=2") := by
  refine ⟨?_, ?_, ?_⟩
  · intro fuel t vb path now tape out ht hrun
    rw [(dry_wet_runs fuel).1 t vb path now tape ht] at hrun
    rcases hw : rebuild_recursively fuel t false true path now tape with - | o
    · rw [hw] at hrun
      cases hrun
    · rw [hw] at hrun
      rw [Option.map_some'] at hrun
      rw [← Option.some.inj hrun]
  · intro fuel t vb path now tape ht
    exact (dry_wet_runs fuel).1 t vb path now tape ht
  · exact ⟨_, rfl, rfl, rfl⟩

/-- C9 witness: the dry run over a one-note directory equals the verbose
wet run with the tree restored, at a concrete input. -/
theorem c9_dry_run_frame_witness :
    rebuild_recursively 1
        (FSNode.dir "nb" (some 0) SidecarFile.missing [FSNode.file "a.md" (some 0)])
        true false "nb" 0 [5] =
      (rebuild_recursively 1
          (FSNode.dir "nb" (some 0) SidecarFile.missing [FSNode.file "a.md" (some 0)])
          false true "nb" 0 [5]).map
        (fun o => ⟨o.configs, o.folderCount, o.noteCount, o.reports,
          FSNode.dir "nb" (some 0) SidecarFile.missing [FSNode.file "a.md" (some 0)],
          o.tape⟩) :=
  c9_dry_run_frame.2.1 1
    (FSNode.dir "nb" (some 0) SidecarFile.missing [FSNode.file "a.md" (some 0)])
    false "nb" 0 [5] (by decide)

/-! ### Scanner classification and pairs-structure lemmas -/

theorem includedDir_spec {c : FSNode} (h : includedDir c = true) :
    c.isDir = true ∧ c.name ≠ CONFIG_FILE_NAME ∧ should_exclude_dir c.name = false := by
  cases c with
  | dir n m sc cs =>
    rw [includedDir, Bool.and_eq_true] at h
    refine ⟨rfl, ?_, ?_⟩
    · intro he
      rw [show FSNode.name (.dir n m sc cs) = n from rfl] at he
      rw [he] at h
      simpa using h.1
    · have := h.2
      rw [Bool.not_eq_true'] at this
      exact this
  | file n m =>
    rw [show includedDir (FSNode.file n m) = false from rfl] at h
    cases h
  | symlink n =>
    rw [show includedDir (FSNode.symlink n) = false from rfl] at h
    cases h

theorem includedNote_spec {c : FSNode} (h : includedNote c = true) :
    (∃ n m, c = FSNode.file n m) ∧ c.name ≠ CONFIG_FILE_NAME ∧
      lowerStr (pySuffix c.name) = NOTE_SUFFIX := by
  cases c with
  | file n m =>
    rw [includedNote, Bool.and_eq_true] at h
    refine ⟨⟨n, m, rfl⟩, ?_, ?_⟩
    · intro he
      rw [show FSNode.name (.file n m) = n from rfl] at he
      rw [he] at h
      simpa using h.1
    · have := h.2
      simpa using this
  | dir n m sc cs =>
    rw [show includedNote (FSNode.dir n m sc cs) = false from rfl] at h
    cases h
  | symlink n =>
    rw [show includedNote (FSNode.symlink n) = false from rfl] at h
    cases h

theorem mem_of_assocGet_some {β : Type} :
    ∀ {l : List (String × β)} {k : String} {v : β},
      assocGet l k = some v → (k, v) ∈ l := by
  intro l
  induction l with
  | nil => intro k v h; cases h
  | cons p rest ih =>
    intro k v h
    rcases p with ⟨k', v'⟩
    by_cases hk : k' = k
    · subst hk
      rw [assocGet_cons_eq] at h
      rw [← Option.some.inj h]
      exact List.mem_cons_self _ _
    · rw [assocGet_cons_ne _ _ hk] at h
      exact List.mem_cons_of_mem _ (ih h)

theorem assocGet_isSome_of_key {β : Type} :
    ∀ {l : List (String × β)} {k : String},
      k ∈ l.map Prod.fst → ∃ v, assocGet l k = some v := by
  intro l
  induction l with
  | nil => intro k h; exact absurd h (List.not_mem_nil k)
  | cons p rest ih =>
    intro k h
    rcases p with ⟨k', v'⟩
    by_cases hk : k' = k
    · subst hk
      exact ⟨v', assocGet_cons_eq _ _ _⟩
    · rw [List.map_cons, List.mem_cons] at h
      rcases h with h | h
      · exact absurd h.symm hk
      · rw [assocGet_cons_ne _ _ hk]
        exact ih h

theorem rebuild_children_keys :
    ∀ (fs : List FSNode) (fuel : Nat) (dry vb : Bool) (path : String) (now : Int)
      (tape : List Nat) (sub : ChildrenOut),
      rebuild_children fuel fs dry vb path now tape = some sub →
      sub.pairs.map Prod.fst = fs.map FSNode.name := by
  intro fs
  induction fs with
  | nil =>
    intro fuel dry vb path now tape sub h
    cases fuel with
    | zero => cases h
    | succ fuel =>
      rw [rebuild_children_nil] at h
      rw [← Option.some.inj h]
      rfl
  | cons f rest ih =>
    intro fuel dry vb path now tape sub h
    cases fuel with
    | zero => cases h
    | succ fuel =>
      obtain ⟨o1, o2, -, h2, rfl⟩ := rebuild_children_cons_eq_some.mp h
      dsimp only
      rw [List.map_cons, List.map_cons]
      rw [ih fuel dry vb path now o1.tape o2 h2]

/-- `filterMap` of the name extractor over dict entries whose first pair is
the name. -/
theorem filterMap_entry_names (g : FSNode → List (String × PyVal))
    (hg : ∀ f, assocGet (g f) "name" = some (PyVal.str f.name)) :
    ∀ folders : List FSNode,
      List.filterMap (fun it =>
        match it with
        | PyVal.dict kvs =>
          match assocGet kvs "name" with
          | some (PyVal.str s) => some s
          | _ => Option.none
        | _ => Option.none) ((folders.map g).map PyVal.dict) = folders.map FSNode.name := by
  intro folders
  induction folders with
  | nil => rfl
  | cons f rest ih =>
    rw [List.map_cons, List.map_cons, List.map_cons, List.filterMap_cons]
    dsimp only
    rw [hg f]
    dsimp only
    rw [ih]

/-- The `folders` names of a built config are exactly the scanned folder
names. -/
theorem config_folder_names_pure (dirMtime : Option Int) (folders : List FSNode)
    (existing : List (String × PyVal)) (now : Int)
    (fes : List (List (String × PyVal))) (sig : String) :
    config_folder_names (build_node_config_pure dirMtime folders existing now fes sig) =
      folders.map FSNode.name := by
  rw [config_folder_names, assocGet_node_pure_folders]
  exact filterMap_entry_names _
    (fun f => by rw [build_folder_entry]; exact assocGet_cons_eq _ _ _) folders

theorem rebuild_tree_shape {fuel : Nat} {t : FSNode} {dry vb : Bool} {path : String}
    {now : Int} {tape : List Nat} {out : RunOut}
    (h : rebuild_recursively fuel t dry vb path now tape = some out) :
    ∃ sc' cs', out.tree = FSNode.dir t.name t.mtime sc' cs' := by
  cases fuel with
  | zero => cases h
  | succ fuel =>
    cases t with
    | file nm m => rw [rebuild_file] at h; cases h
    | symlink nm => rw [rebuild_symlink] at h; cases h
    | dir name mtime sc cs =>
      obtain ⟨cfg, tape1, sub, -, -, rfl⟩ := rebuild_dir_eq_some.mp h
      exact ⟨_, _, rfl⟩

theorem rebuild_children_pairs_dirs :
    ∀ (fs : List FSNode) (fuel : Nat) (dry vb : Bool) (path : String) (now : Int)
      (tape : List Nat) (sub : ChildrenOut),
      rebuild_children fuel fs dry vb path now tape = some sub →
      ∀ pr ∈ sub.pairs, ∃ m sc' cs', pr.2 = FSNode.dir pr.1 m sc' cs' := by
  intro fs
  induction fs with
  | nil =>
    intro fuel dry vb path now tape sub h pr hpr
    cases fuel with
    | zero => cases h
    | succ fuel =>
      rw [rebuild_children_nil] at h
      rw [← Option.some.inj h] at hpr
      exact absurd hpr (List.not_mem_nil pr)
  | cons f rest ih =>
    intro fuel dry vb path now tape sub h pr hpr
    cases fuel with
    | zero => cases h
    | succ fuel =>
      obtain ⟨o1, o2, h1, h2, rfl⟩ := rebuild_children_cons_eq_some.mp h
      dsimp only at hpr
      rcases List.mem_cons.mp hpr with rfl | hpr'
      · obtain ⟨sc', cs', htree⟩ := rebuild_tree_shape h1
        exact ⟨f.mtime, sc', cs', htree⟩
      · exact ih fuel dry vb path now o1.tape o2 h2 pr hpr'

theorem mem_written_children :
    ∀ {l : List FSNode} {cfg : List (String × PyVal)},
      cfg ∈ written_configs_children l →
      ∃ c ∈ l, includedDir c = true ∧ cfg ∈ written_configs c := by
  intro l
  induction l with
  | nil => intro cfg h; exact absurd h (List.not_mem_nil cfg)
  | cons c cs ih =>
    intro cfg h
    rw [written_configs_children] at h
    rw [List.mem_append] at h
    rcases h with h | h
    · by_cases hincl : includedDir c
      · rw [if_pos hincl] at h
        exact ⟨c, List.mem_cons_self _ _, hincl, h⟩
      · rw [if_neg hincl] at h
        exact absurd h (List.not_mem_nil cfg)
    · obtain ⟨d, hd, hi, hc⟩ := ih h
      exact ⟨d, List.mem_cons_of_mem _ hd, hi, hc⟩

/-- No config a wet run writes — at the root or anywhere below — lists an
excluded or sidecar-named directory in `folders`. -/
theorem written_configs_ok : ∀ fuel : Nat,
    (∀ t vb path now tape out,
      rebuild_recursively fuel t false vb path now tape = some out →
      no_excluded_folder_listed (written_configs out.tree)) ∧
    (∀ fs vb path now tape sub,
      rebuild_children fuel fs false vb path now tape = some sub →
      ∀ pr ∈ sub.pairs, no_excluded_folder_listed (written_configs pr.2)) := by
  intro fuel
  induction fuel with
  | zero =>
    constructor
    · intro t vb path now tape out h
      cases h
    · intro fs vb path now tape sub h
      cases h
  | succ fuel ih =>
    obtain ⟨ihP, ihQ⟩ := ih
    constructor
    · intro t vb path now tape out hrun
      cases t with
      | file nm m => rw [rebuild_file] at hrun; cases hrun
      | symlink nm => rw [rebuild_symlink] at hrun; cases hrun
      | dir name mtime sc cs =>
        obtain ⟨cfg, tape1, sub, hb, hsub, rfl⟩ := rebuild_dir_eq_some.mp hrun
        intro c hc nm hnm
        rw [if_neg (by simp : ¬ (false : Bool) = true)] at hc
        rw [written_configs] at hc
        rw [List.mem_append] at hc
        rcases hc with hc | hc
        · -- the root config itself
          rw [List.mem_singleton] at hc
          subst hc
          obtain ⟨fes, tapef, sig, -, -, rfl⟩ := build_node_config_eq_some.mp hb
          rw [config_folder_names_pure] at hnm
          obtain ⟨f, hf, rfl⟩ := List.mem_map.mp hnm
          obtain ⟨-, hname, hexcl⟩ := includedDir_spec (mem_sort_filter.mp hf).2
          exact ⟨hexcl, hname⟩
        · -- configs written below
          obtain ⟨gc, hgc, hincl, hcfg⟩ := mem_written_children hc
          obtain ⟨c0, hc0, rfl⟩ := List.mem_map.mp hgc
          by_cases hincl0 : includedDir c0
          · rw [if_pos hincl0] at hincl hcfg
            rcases hget : assocGet sub.pairs c0.name with - | tr
            · rw [hget] at hcfg
              -- the lookup cannot fail: the key is among the pairs keys
              have hkeys := rebuild_children_keys (iter_children cs).1 fuel false vb
                path now tape1 sub hsub
              have hc0f : c0 ∈ (iter_children cs).1 :=
                mem_sort_filter.mpr ⟨hc0, hincl0⟩
              have : c0.name ∈ sub.pairs.map Prod.fst := by
                rw [hkeys]
                exact List.mem_map_of_mem FSNode.name hc0f
              obtain ⟨v, hv⟩ := assocGet_isSome_of_key this
              rw [hv] at hget
              cases hget
            · rw [hget] at hcfg
              exact ihQ (iter_children cs).1 vb path now tape1 sub hsub
                (c0.name, tr) (mem_of_assocGet_some hget) c hcfg nm hnm
          · rw [if_neg hincl0] at hincl
            exact absurd hincl (by simp [hincl0])
    · intro fs vb path now tape sub hrun
      cases fs with
      | nil =>
        rw [rebuild_children_nil] at hrun
        intro pr hpr
        rw [← Option.some.inj hrun] at hpr
        exact absurd hpr (List.not_mem_nil pr)
      | cons f rest =>
        obtain ⟨o1, o2, h1, h2, rfl⟩ := rebuild_children_cons_eq_some.mp hrun
        intro pr hpr
        dsimp only at hpr
        rcases List.mem_cons.mp hpr with rfl | hpr'
        · exact ihP f vb (path ++ "/" ++ f.name) now tape o1 h1
        · exact ihQ rest vb path now o1.tape o2 h2 pr hpr'

theorem should_exclude_false_parts {nm : String} (h : should_exclude_dir nm = false) :
    is_hidden_name nm = false ∧
      "_assets".data.isSuffixOf (lowerStr nm).data = false ∧
      BUILT_IN_DIR_NAMES.contains (lowerStr nm) = false := by
  rw [should_exclude_dir] at h
  simp only [Bool.or_eq_false_iff] at h
  exact ⟨h.1.1, h.1.2, h.2⟩

/-! ### Claim C4: exclusion invariant -/

/-- C4.  Scanner output `folders` holds only real directories that are not
named `vx.json`, not hidden, not `*_assets`, and not in the built-in set
(symlinks are never classified as folders or notes); `notes` holds only
regular `.md` files not named `vx.json`.  A child the scanner excludes is
left untouched in the output tree — it is never recursed into — and no
config any run writes, anywhere in the tree, lists an excluded or
sidecar-named directory under `folders`. -/
theorem c4_exclusion_invariant :
    (∀ children : List FSNode,
      (∀ f ∈ (iter_children children).1,
        f.isDir = true ∧ f.name ≠ CONFIG_FILE_NAME ∧
        is_hidden_name f.name = false ∧
        "_assets".data.isSuffixOf (lowerStr f.name).data = false ∧
        BUILT_IN_DIR_NAMES.contains (lowerStr f.name) = false) ∧
      (∀ n ∈ (iter_children children).2,
        (∃ nm m, n = FSNode.file nm m) ∧ n.name ≠ CONFIG_FILE_NAME ∧
        lowerStr (pySuffix n.name) = NOTE_SUFFIX)) ∧
    (∀ fuel t dry vb path now tape out,
      rebuild_recursively fuel t dry vb path now tape = some out →
      ∀ c ∈ t.childrenOf, includedDir c = false → c ∈ out.tree.childrenOf) ∧
    (∀ fuel t vb path now tape out,
      rebuild_recursively fuel t false vb path now tape = some out →
      ∀ cfg ∈ written_configs out.tree, ∀ nm ∈ config_folder_names cfg,
        is_hidden_name nm = false ∧
        "_assets".data.isSuffixOf (lowerStr nm).data = false ∧
        BUILT_IN_DIR_NAMES.contains (lowerStr nm) = false ∧
        nm ≠ CONFIG_FILE_NAME) := by
  refine ⟨?_, ?_, ?_⟩
  · intro children
    constructor
    · intro f hf
      obtain ⟨hdir, hname, hexcl⟩ := includedDir_spec (mem_sort_filter.mp hf).2
      obtain ⟨h1, h2, h3⟩ := should_exclude_false_parts hexcl
      exact ⟨hdir, hname, h1, h2, h3⟩
    · intro n hn
      exact includedNote_spec (mem_sort_filter.mp hn).2
  · intro fuel t dry vb path now tape out hrun c hc hincl
    cases fuel with
    | zero => cases hrun
    | succ fuel =>
      cases t with
      | file nm m => rw [rebuild_file] at hrun; cases hrun
      | symlink nm => rw [rebuild_symlink] at hrun; cases hrun
      | dir name mtime sc cs =>
        obtain ⟨cfg, tape1, sub, -, -, rfl⟩ := rebuild_dir_eq_some.mp hrun
        rw [show FSNode.childrenOf (FSNode.dir name mtime sc cs) = cs from rfl] at hc
        have hfix : (fun x => if includedDir x then (assocGet sub.pairs x.name).getD x else x) c
            = c := by
          dsimp only
          rw [if_neg (by simp [hincl])]
        have hmem : c ∈ cs.map fun x =>
            if includedDir x then (assocGet sub.pairs x.name).getD x else x := by
          rw [← hfix]
          exact List.mem_map_of_mem _ hc
        exact hmem
  · intro fuel t vb path now tape out hrun cfg hcfg nm hnm
    obtain ⟨hexcl, hname⟩ :=
      (written_configs_ok fuel).1 t vb path now tape out hrun cfg hcfg nm hnm
    obtain ⟨h1, h2, h3⟩ := should_exclude_false_parts hexcl
    exact ⟨h1, h2, h3, hname⟩

/-- Witness for C4 at a concrete tree: the scanner classifies `a.md` as a
regular `.md` note, and a wet run leaves the excluded hidden directory
`.git` untouched among the output tree's children. -/
theorem c4_exclusion_invariant_witness :
    ((∃ nm m, FSNode.file "a.md" (some 0) = FSNode.file nm m) ∧
      (FSNode.file "a.md" (some 0)).name ≠ CONFIG_FILE_NAME ∧
      lowerStr (pySuffix (FSNode.file "a.md" (some 0)).name) = NOTE_SUFFIX) ∧
    FSNode.dir ".git" (some 0) SidecarFile.missing [] ∈
      (FSNode.dir "nb" (some 0) (SidecarFile.content (PyVal.dict
        [("version", PyVal.int 3),
         ("id", PyVal.str "0"),
         ("signature", PyVal.str "2"),
         ("created_time", PyVal.str "1970-01-01T00:00:00Z"),
         ("modified_time", PyVal.str "1970-01-01T00:00:00Z"),
         ("files", PyVal.list
           [PyVal.dict
             [("name", PyVal.str "a.md"),
              ("id", PyVal.str "0"),
              ("signature", PyVal.str "1"),
              ("created_time", PyVal.str "1970-01-01T00:00:00Z"),
              ("modified_time", PyVal.str "1970-01-01T00:00:00Z"),
              ("tags", PyVal.list []),
              ("attachment_folder", PyVal.str "")]]),
         ("folders", PyVal.list [])]))
        [FSNode.dir ".git" (some 0) SidecarFile.missing [],
         FSNode.dir "Notes_Assets" (some 0) SidecarFile.missing [],
         FSNode.dir "vx_recycle_bin" (some 0) SidecarFile.missing [],
         FSNode.symlink "link",
         FSNode.file "a.md" (some 0)]).childrenOf := by
  constructor
  · exact (c4_exclusion_invariant.1
      [FSNode.dir ".git" (some 0) SidecarFile.missing [],
       FSNode.dir "Notes_Assets" (some 0) SidecarFile.missing [],
       FSNode.dir "vx_recycle_bin" (some 0) SidecarFile.missing [],
       FSNode.symlink "link",
       FSNode.file "a.md" (some 0)]).2 (FSNode.file "a.md" (some 0))
      (show FSNode.file "a.md" (some 0) ∈ [FSNode.file "a.md" (some 0)] from
        List.Mem.head _)
  · exact c4_exclusion_invariant.2.1 2
      (FSNode.dir "nb" (some 0) SidecarFile.missing
        [FSNode.dir ".git" (some 0) SidecarFile.missing [],
         FSNode.dir "Notes_Assets" (some 0) SidecarFile.missing [],
         FSNode.dir "vx_recycle_bin" (some 0) SidecarFile.missing [],
         FSNode.symlink "link",
         FSNode.file "a.md" (some 0)]) false false "nb" 0 [1, 2]
      ⟨1, 0, 1, [],
        FSNode.dir "nb" (some 0) (SidecarFile.content (PyVal.dict
          [("version", PyVal.int 3),
           ("id", PyVal.str "0"),
           ("signature", PyVal.str "2"),
           ("created_time", PyVal.str "1970-01-01T00:00:00Z"),
           ("modified_time", PyVal.str "1970-01-01T00:00:00Z"),
           ("files", PyVal.list
             [PyVal.dict
               [("name", PyVal.str "a.md"),
                ("id", PyVal.str "0"),
                ("signature", PyVal.str "1"),
                ("created_time", PyVal.str "1970-01-01T00:00:00Z"),
                ("modified_time", PyVal.str "1970-01-01T00:00:00Z"),
                ("tags", PyVal.list []),
                ("attachment_folder", PyVal.str "")]]),
           ("folders", PyVal.list [])]))
          [FSNode.dir ".git" (some 0) SidecarFile.missing [],
           FSNode.dir "Notes_Assets" (some 0) SidecarFile.missing [],
           FSNode.dir "vx_recycle_bin" (some 0) SidecarFile.missing [],
           FSNode.symlink "link",
           FSNode.file "a.md" (some 0)], []⟩ rfl
      (FSNode.dir ".git" (some 0) SidecarFile.missing [])
      (List.Mem.head _) rfl

/-! ### Idempotence helpers: cleanliness, roundtrips, lookups -/

theorem not_bool_dictGetD {e : List (String × PyVal)} {k : String}
    (h : not_bool_val (assocGet e k) = true) : ∀ b, dictGetD e k ≠ PyVal.bool b := by
  intro b hc
  rw [dictGetD] at hc
  rcases ha : assocGet e k with - | v
  · rw [ha, Option.getD_none] at hc
    cases hc
  · rw [ha, Option.getD_some] at hc
    subst hc
    rw [ha] at h
    rw [show not_bool_val (some (PyVal.bool b)) = false from rfl] at h
    exact absurd h (by decide)

/-- A written `id` value — parsed from a non-boolean raw value, or the
default `"0"` — parses back to itself. -/
theorem id_getD_valid {existing : List (String × PyVal)}
    (hnb : not_bool_val (assocGet existing "id") = true) :
    parse_id_like (PyVal.str ((parse_id_like (dictGetD existing "id")).getD "0")) =
      some ((parse_id_like (dictGetD existing "id")).getD "0") := by
  rcases h : parse_id_like (dictGetD existing "id") with - | s
  · rw [Option.getD_none]
    exact parse_id_like_of_digits (by decide)
  · rw [Option.getD_some]
    exact parse_id_like_roundtrip (not_bool_dictGetD hnb) h

/-- Any signature `sig_draw` settles on — kept from a non-boolean raw value,
or freshly generated — parses back to itself. -/
theorem sig_draw_valid {existing : List (String × PyVal)} {tape tape2 : List Nat} {sig : String}
    (hnb : not_bool_val (assocGet existing "signature") = true)
    (h : sig_draw existing tape = some (sig, tape2)) :
    parse_signature_like (PyVal.str sig) = some sig := by
  rw [sig_draw] at h
  rcases hp : parse_signature_like (dictGetD existing "signature") with - | s
  · rw [hp] at h
    dsimp only at h
    obtain ⟨m, hm, -, rfl⟩ := generate_signature_spec tape sig tape2 h
    exact parse_signature_like_decimalStr hm
  · rw [hp] at h
    dsimp only at h
    obtain ⟨rfl, rfl⟩ : s = sig ∧ tape = tape2 := by
      constructor <;> simp_all
    exact parse_signature_like_roundtrip (not_bool_dictGetD hnb) hp

/-- `version_of` is idempotent across a rewrite cycle: a stored version (an
int or a carried-through bool) is kept verbatim by the next run. -/
theorem version_of_cfg {cfg existing : List (String × PyVal)}
    (h : dictGetD cfg "version" = version_of existing) :
    version_of cfg = version_of existing := by
  rw [version_of]
  rw [h]
  rcases hv : dictGetD existing "version" with - | b | n | s | xs | kvs <;>
    rw [version_of, hv]

theorem map_entries_by_name_eq_nil :
    ∀ {v : PyVal}, (∀ items, v ≠ PyVal.list items) → map_entries_by_name v = [] := by
  intro v h
  cases v
  case list items => exact absurd rfl (h items)
  all_goals rfl

theorem entry_name_match_not_dict {nm : String} {it : PyVal}
    (h : ∀ kvs, it ≠ PyVal.dict kvs) : entry_name_match nm it = Option.none := by
  cases it
  case dict kvs => exact absurd rfl (h kvs)
  all_goals rfl

theorem entries_find_mem :
    ∀ {items : List PyVal} {nm : String} {kvs : List (String × PyVal)},
      entries_find items nm = some kvs → PyVal.dict kvs ∈ items := by
  intro items nm kvs h
  rw [entries_find] at h
  obtain ⟨a, ha, hma⟩ := List.exists_of_findSome?_eq_some h
  cases a
  case dict kvs2 =>
    rcases hn : assocGet kvs2 "name" with - | v
    · rw [entry_name_match, hn] at hma
      exact absurd hma (by simp)
    · cases v <;> rw [entry_name_match, hn] at hma <;> dsimp only at hma
      case str s =>
        by_cases hs : s = ""
        · rw [if_pos hs] at hma
          exact absurd hma (by simp)
        · rw [if_neg hs] at hma
          by_cases hsnm : s = nm
          · rw [if_pos hsnm] at hma
            rw [← Option.some.inj hma]
            exact ha
          · rw [if_neg hsnm] at hma
            exact absurd hma (by simp)
      all_goals exact absurd hma (by simp)
  all_goals
    rw [entry_name_match_not_dict (by intro kvs2 hx; cases hx)] at hma
    exact absurd hma (by simp)

/-- Looking a name up in a list of dicts whose first pair is that name
returns the entry carrying it, provided names are distinct and non-empty. -/
theorem entries_find_pairs :
    ∀ (ps : List (String × List (String × PyVal))),
      (∀ p ∈ ps, assocGet p.2 "name" = some (PyVal.str p.1)) →
      (ps.map Prod.fst).Nodup →
      (∀ p ∈ ps, p.1 ≠ "") →
      ∀ nm e, (nm, e) ∈ ps →
        entries_find (ps.map fun p => PyVal.dict p.2) nm = some e := by
  intro ps
  induction ps with
  | nil =>
    intro _ _ _ nm e h
    exact absurd h (List.not_mem_nil _)
  | cons q rest ih =>
    intro hname hnodup hne nm e hmem
    rcases q with ⟨k, ek⟩
    rw [List.map_cons, entries_find_cons]
    have hm : entry_name_match nm (PyVal.dict ek) =
        if k = nm then some ek else Option.none := by
      rw [entry_name_match, hname (k, ek) (List.mem_cons_self _ _)]
      dsimp only
      rw [if_neg (hne (k, ek) (List.mem_cons_self _ _))]
    rcases List.mem_cons.mp hmem with heq | hmem2
    · obtain ⟨h1, h2⟩ := Prod.mk.inj heq
      rw [hm, if_pos h1.symm]
      dsimp only
      rw [h2]
    · have hk : k ≠ nm := by
        rw [List.map_cons, List.nodup_cons] at hnodup
        intro hkk
        apply hnodup.1
        rw [hkk]
        exact List.mem_map.mpr ⟨(nm, e), hmem2, rfl⟩
      rw [hm, if_neg hk]
      dsimp only
      exact ih (fun p hp => hname p (List.mem_cons_of_mem _ hp))
        (by rw [List.map_cons, List.nodup_cons] at hnodup; exact hnodup.2)
        (fun p hp => hne p (List.mem_cons_of_mem _ hp)) nm e hmem2

/-- Per-file existing state looked up through a clean config's `files` list
is itself clean in `id` and `signature`. -/
theorem lookup_files_clean {cfg : List (String × PyVal)} (hc : clean_config cfg = true)
    (nm : String) :
    not_bool_val (assocGet ((assocGet (map_entries_by_name (dictGetD cfg "files")) nm).getD [])
      "id") = true ∧
    not_bool_val (assocGet ((assocGet (map_entries_by_name (dictGetD cfg "files")) nm).getD [])
      "signature") = true := by
  rw [clean_config, Bool.and_eq_true, Bool.and_eq_true] at hc
  obtain ⟨-, hfiles⟩ := hc
  rcases hf : assocGet cfg "files" with - | v
  · rw [dictGetD, hf, Option.getD_none]
    rw [show map_entries_by_name PyVal.none = [] from rfl]
    rw [show assocGet ([] : List (String × List (String × PyVal))) nm = Option.none from rfl,
      Option.getD_none]
    exact ⟨rfl, rfl⟩
  · rw [dictGetD, hf, Option.getD_some]
    rw [hf] at hfiles
    cases v
    case list items =>
      dsimp only at hfiles
      rcases hl : assocGet (map_entries_by_name (PyVal.list items)) nm with - | kvs
      · rw [Option.getD_none]
        exact ⟨rfl, rfl⟩
      · rw [Option.getD_some]
        rw [assocGet_map_entries] at hl
        have hmem := entries_find_mem hl
        have hcl := (List.all_eq_true.mp hfiles) _ hmem
        rw [clean_entry_val, Bool.and_eq_true] at hcl
        exact hcl
    all_goals
      rw [map_entries_by_name_eq_nil (by intro items hx; cases hx)]
      rw [show assocGet ([] : List (String × List (String × PyVal))) nm = Option.none from rfl,
        Option.getD_none]
      exact ⟨rfl, rfl⟩

theorem isPrefixOf_append_self : ∀ (x y : List Char), x.isPrefixOf (x ++ y) = true := by
  intro x y
  induction x with
  | nil => cases y <;> rfl
  | cons a as ih =>
    rw [List.cons_append]
    rw [show (a :: as).isPrefixOf (a :: (as ++ y)) = ((a == a) && as.isPrefixOf (as ++ y))
      from rfl]
    rw [ih, beq_self_eq_true]
    rfl

theorem isSuffixOf_append_self (l1 l2 : List Char) : l2.isSuffixOf (l1 ++ l2) = true := by
  rw [List.isSuffixOf, List.reverse_append]
  exact isPrefixOf_append_self l2.reverse l1.reverse

theorem lowerStr_append (a b : String) : lowerStr (a ++ b) = lowerStr a ++ lowerStr b := by
  rw [lowerStr, lowerStr, lowerStr]
  show String.mk ((a ++ b).data.map Char.toLower) =
    String.mk (a.data.map Char.toLower ++ b.data.map Char.toLower)
  rw [String.data_append, List.map_append]

/-- Any name of the form `<stem>_assets` is an excluded directory name. -/
theorem should_exclude_assets (s : String) : should_exclude_dir (s ++ "_assets") = true := by
  rw [should_exclude_dir]
  have h2 : "_assets".data.isSuffixOf (lowerStr (s ++ "_assets")).data = true := by
    rw [lowerStr_append]
    rw [show lowerStr "_assets" = "_assets" by decide]
    rw [String.data_append]
    exact isSuffixOf_append_self (lowerStr s).data "_assets".data
  rw [h2]
  simp

theorem build_folder_entry_idem (n : String) (ex : List (String × PyVal)) :
    build_folder_entry n (build_folder_entry n ex) = build_folder_entry n ex := by
  rw [show build_folder_entry n (build_folder_entry n ex)
      = ("name", PyVal.str n) :: visual_pairs (("name", PyVal.str n) :: visual_pairs ex)
    from rfl]
  rw [show build_folder_entry n ex = ("name", PyVal.str n) :: visual_pairs ex from rfl]
  congr 1
  rw [show (("name", PyVal.str n) :: visual_pairs ex : List (String × PyVal))
      = [("name", PyVal.str n)] ++ visual_pairs ex from rfl]
  apply visual_pairs_stable
  intro p hp
  rw [List.mem_singleton] at hp
  subst hp
  exact ⟨show ("name" : String) ≠ "background_color" by decide,
    show ("name" : String) ≠ "border_color" by decide,
    show ("name" : String) ≠ "name_color" by decide⟩

/-! ### Scanner and inference invariance under subtree substitution -/

theorem includedDir_false_of_not {c : FSNode} (h : ¬ includedDir c = true) :
    includedDir c = false := by
  revert h
  cases includedDir c <;> simp

/-- A directory-by-name probe is unchanged by a substitution that keeps
excluded children intact and rewrites included directories in place, as
long as the probed name is an excluded one. -/
theorem find_dir_children_g (cs : List FSNode) (g : FSNode → FSNode)
    (h1 : ∀ c, includedDir c = false → g c = c)
    (h2 : ∀ c, includedDir c = true →
      ∃ m sc kids, g c = FSNode.dir (FSNode.name c) m sc kids)
    {nm : String} (hnm : should_exclude_dir nm = true) :
    find_dir_children (cs.map g) nm = find_dir_children cs nm := by
  rw [find_dir_children, find_dir_children]
  induction cs with
  | nil => rfl
  | cons c rest ih =>
    rw [List.map_cons, List.findSome?_cons, List.findSome?_cons]
    have hc : (match g c with
        | FSNode.dir n _ _ kids => if n = nm then some kids else Option.none
        | _ => Option.none) =
      (match c with
        | FSNode.dir n _ _ kids => if n = nm then some kids else Option.none
        | _ => Option.none) := by
      by_cases hI : includedDir c = true
      · obtain ⟨m, sc, kids, hgc⟩ := h2 c hI
        obtain ⟨hdirc, -, hexcl⟩ := includedDir_spec hI
        cases c with
        | dir n mm scc kidsc =>
          rw [hgc]
          dsimp only
          have hne : n ≠ nm := by
            intro he
            rw [show FSNode.name (FSNode.dir n mm scc kidsc) = n from rfl, he, hnm] at hexcl
            cases hexcl
          rw [show FSNode.name (FSNode.dir n mm scc kidsc) = n from rfl]
          rw [if_neg hne, if_neg hne]
        | file nmf mf => cases hdirc
        | symlink nms => cases hdirc
      · rw [h1 c (includedDir_false_of_not hI)]
    rw [hc]
    rcases hv : (match c with
        | FSNode.dir n _ _ kids => if n = nm then some kids else Option.none
        | _ => Option.none) with - | v
    · rw [hv]
      exact ih
    · rw [hv]

/-- Attachment inference only probes `<stem>_assets` directories, which are
always excluded, so it is unchanged by a substitution that only rewrites
included directories (keeping their names) in place. -/
theorem infer_map (noteName : String) (cs : List FSNode) (g : FSNode → FSNode)
    (h1 : ∀ c, includedDir c = false → g c = c)
    (h2 : ∀ c, includedDir c = true →
      ∃ m sc kids, g c = FSNode.dir (FSNode.name c) m sc kids) :
    infer_attachment_folder_from_assets noteName (cs.map g) =
      infer_attachment_folder_from_assets noteName cs := by
  rw [infer_attachment_folder_from_assets, infer_attachment_folder_from_assets]
  rw [find_dir_children_g cs g h1 h2 (should_exclude_assets (pyStem noteName))]

/-- Scanning a substituted child list: folders are the substituted scanned
folders, notes are untouched. -/
theorem iter_children_map (cs : List FSNode) (g : FSNode → FSNode)
    (hname : ∀ c, FSNode.name (g c) = FSNode.name c)
    (hdir : ∀ c, includedDir (g c) = includedDir c)
    (hnote : ∀ c, includedNote (g c) = includedNote c)
    (hfixn : ∀ c, includedNote c = true → g c = c) :
    iter_children (cs.map g) = ((iter_children cs).1.map g, (iter_children cs).2) := by
  rw [iter_children, iter_children]
  have h1 : (cs.map g).filter includedDir = (cs.filter includedDir).map g := by
    rw [List.filter_map]
    congr 1
    apply List.filter_congr
    intro c _
    exact hdir c
  have h2 : (cs.map g).filter includedNote = cs.filter includedNote := by
    rw [List.filter_map]
    rw [show cs.filter (includedNote ∘ g) = cs.filter includedNote from
      List.filter_congr (fun c _ => hnote c)]
    apply map_eq_self_of_eq
    intro c hcmem
    exact hfixn c (List.mem_filter.mp hcmem).2
  rw [h1, h2]
  rw [stableSortBy_map nodeCaseLe nodeCaseLe g
    (fun a b => by rw [nodeCaseLe, nodeCaseLe, hname a, hname b])]

/-- Rebuilding a file entry from its own previous output reproduces it
byte-for-byte and consumes no entropy, provided the previous existing state
held no boolean `id`, the signature written re-parses, the two wall clocks
agree at second precision, and the attachment inference sees an equivalent
sibling list. -/
theorem build_file_entry_idem (note : FSNode) (siblings siblings2 : List FSNode)
    (existing : List (String × PyVal)) (now now2 : Int) (sig : String)
    (hid : not_bool_val (assocGet existing "id") = true)
    (hsig : parse_signature_like (PyVal.str sig) = some sig)
    (hsec : now.fdiv 1000000 = now2.fdiv 1000000)
    (hinf : infer_attachment_folder_from_assets (FSNode.name note) siblings2 =
      infer_attachment_folder_from_assets (FSNode.name note) siblings) :
    ∀ tp : List Nat,
      build_file_entry note siblings2 (build_file_entry_pure note siblings existing now sig)
          now2 tp =
        some (build_file_entry_pure note siblings existing now sig, tp) := by
  intro tp
  have hdg : dictGetD (build_file_entry_pure note siblings existing now sig) "signature" =
      PyVal.str sig := by
    rw [dictGetD, assocGet_file_pure_signature, Option.getD_some]
  have hdraw : sig_draw (build_file_entry_pure note siblings existing now sig) tp =
      some (sig, tp) := by
    apply sig_draw_of_some
    rw [hdg]
    exact hsig
  have h_id : (parse_id_like (dictGetD (build_file_entry_pure note siblings existing now sig)
      "id")).getD "0" = (parse_id_like (dictGetD existing "id")).getD "0" := by
    rw [show dictGetD (build_file_entry_pure note siblings existing now sig) "id"
        = PyVal.str ((parse_id_like (dictGetD existing "id")).getD "0") from by
      rw [dictGetD, assocGet_file_pure_id, Option.getD_some]]
    rw [id_getD_valid hid, Option.getD_some]
  have h_ct : get_existing_time (build_file_entry_pure note siblings existing now sig)
      "created_time" (safe_mtime (FSNode.mtime note) now2) =
      get_existing_time existing "created_time" (safe_mtime (FSNode.mtime note) now) :=
    get_existing_time_of_str _ (assocGet_file_pure_created note siblings existing now sig)
      (get_existing_time_ne_empty existing "created_time" _)
  have h_mod : iso_utc_from_timestamp (safe_mtime (FSNode.mtime note) now2) =
      iso_utc_from_timestamp (safe_mtime (FSNode.mtime note) now) :=
    (iso_safe_mtime_congr (FSNode.mtime note) hsec).symm
  have h_tags : clean_tags (dictGetD (build_file_entry_pure note siblings existing now sig)
      "tags") = clean_tags (dictGetD existing "tags") := by
    rw [show dictGetD (build_file_entry_pure note siblings existing now sig) "tags"
        = PyVal.list ((clean_tags (dictGetD existing "tags")).map PyVal.str) from by
      rw [dictGetD, assocGet_file_pure_tags, Option.getD_some]]
    exact clean_tags_fixpoint _ (clean_tags_ne_empty _)
  have h_af : chosen_attachment_folder (build_file_entry_pure note siblings existing now sig)
      (FSNode.name note) siblings2 =
      chosen_attachment_folder existing (FSNode.name note) siblings := by
    have hex : existing_attachment_folder (build_file_entry_pure note siblings existing now sig)
        = chosen_attachment_folder existing (FSNode.name note) siblings := by
      rw [existing_attachment_folder, assocGet_file_pure_attachment]
    rw [chosen_attachment_folder, hex]
    by_cases haf : chosen_attachment_folder existing (FSNode.name note) siblings = ""
    · rw [if_pos haf, hinf]
      rw [haf]
      rw [chosen_attachment_folder] at haf
      by_cases hx : existing_attachment_folder existing = ""
      · rw [if_pos hx] at haf
        exact haf
      · rw [if_neg hx] at haf
        exact absurd haf hx
    · rw [if_neg haf]
  have hkeys : ∀ (k : String) (v : PyVal), k ≠ "background_color" → k ≠ "border_color" →
      k ≠ "name_color" →
      ((k, v).1 ≠ "background_color" ∧ (k, v).1 ≠ "border_color" ∧ (k, v).1 ≠ "name_color") :=
    fun _ _ a b c => ⟨a, b, c⟩
  have h_vis : visual_pairs (build_file_entry_pure note siblings existing now sig) =
      visual_pairs existing := by
    rw [show build_file_entry_pure note siblings existing now sig
        = [("name", PyVal.str (FSNode.name note)),
           ("id", PyVal.str ((parse_id_like (dictGetD existing "id")).getD "0")),
           ("signature", PyVal.str sig),
           ("created_time", PyVal.str (get_existing_time existing "created_time"
             (safe_mtime (FSNode.mtime note) now))),
           ("modified_time", PyVal.str (iso_utc_from_timestamp
             (safe_mtime (FSNode.mtime note) now))),
           ("tags", PyVal.list ((clean_tags (dictGetD existing "tags")).map PyVal.str)),
           ("attachment_folder", PyVal.str (chosen_attachment_folder existing
             (FSNode.name note) siblings))] ++ visual_pairs existing from rfl]
    apply visual_pairs_stable
    intro p hp
    simp only [List.mem_cons, List.not_mem_nil, or_false] at hp
    rcases hp with rfl | rfl | rfl | rfl | rfl | rfl | rfl <;>
      exact hkeys _ _ (by decide) (by decide) (by decide)
  have hpure : build_file_entry_pure note siblings2
      (build_file_entry_pure note siblings existing now sig) now2 sig =
      build_file_entry_pure note siblings existing now sig := by
    conv_lhs => rw [build_file_entry_pure]
    rw [h_id, h_ct, h_mod, h_tags, h_af, h_vis]
    rfl
  rw [build_file_entry, hdraw, opt_bind_some]
  dsimp only
  rw [hpure]

/-- Each built file entry names its note. -/
theorem build_file_entries_names :
    ∀ (notes : List FSNode) (siblings : List FSNode)
      (exf : List (String × List (String × PyVal))) (now : Int) (tape : List Nat)
      (fes : List (List (String × PyVal))) (tape1 : List Nat),
      build_file_entries notes siblings exf now tape = some (fes, tape1) →
      List.Forall₂ (fun (n : FSNode) (e : List (String × PyVal)) =>
        assocGet e "name" = some (PyVal.str (FSNode.name n))) notes fes := by
  intro notes
  induction notes with
  | nil =>
    intro siblings exf now tape fes tape1 h
    rw [build_file_entries_nil] at h
    obtain ⟨rfl, rfl⟩ := Prod.mk.inj (Option.some.inj h)
    exact List.Forall₂.nil
  | cons note rest ih =>
    intro siblings exf now tape fes tape1 h
    obtain ⟨e, tapeA, es2, h1, h2, rfl⟩ := build_file_entries_cons_eq_some.mp h
    obtain ⟨sig, -, rfl⟩ := build_file_entry_eq_some.mp h1
    exact List.Forall₂.cons (assocGet_file_pure_name note siblings _ now sig)
      (ih siblings exf now tapeA es2 tape1 h2)

/-- A run whose per-note lookup returns the expected entry and whose entry
builder reproduces each entry without consuming entropy reproduces the whole
list without consuming entropy. -/
theorem build_file_entries_of_pointwise :
    ∀ {notes : List FSNode} {fes : List (List (String × PyVal))}
      {siblings2 : List FSNode} {exf2 : List (String × List (String × PyVal))}
      {now2 : Int},
      List.Forall₂ (fun (note : FSNode) (e : List (String × PyVal)) =>
        (assocGet exf2 (FSNode.name note)).getD [] = e ∧
        ∀ tp : List Nat, build_file_entry note siblings2 e now2 tp = some (e, tp))
        notes fes →
      ∀ tape2 : List Nat,
        build_file_entries notes siblings2 exf2 now2 tape2 = some (fes, tape2) := by
  intro notes fes siblings2 exf2 now2 hforall
  induction hforall with
  | nil =>
    intro tape2
    exact build_file_entries_nil _ _ _ _
  | cons hhead htail ihh =>
    intro tape2
    rename_i note e rest es
    apply build_file_entries_cons_eq_some.mpr
    refine ⟨e, tape2, es, ?_, ihh tape2, rfl⟩
    rw [hhead.1]
    exact hhead.2 tape2

/-- What the first run's file-entry pass actually produces: each entry is the
pure builder's output for its note, from that note's looked-up existing
state, under a signature that re-parses to itself. -/
theorem build_file_entries_spec :
    ∀ (notes : List FSNode) (siblings : List FSNode)
      (exf : List (String × List (String × PyVal))) (now : Int) (tape : List Nat)
      (fes : List (List (String × PyVal))) (tape1 : List Nat),
      (∀ nm : String,
        not_bool_val (assocGet ((assocGet exf nm).getD []) "signature") = true) →
      build_file_entries notes siblings exf now tape = some (fes, tape1) →
      List.Forall₂ (fun (note : FSNode) (e : List (String × PyVal)) =>
        ∃ s, parse_signature_like (PyVal.str s) = some s ∧
          e = build_file_entry_pure note siblings
            ((assocGet exf (FSNode.name note)).getD []) now s) notes fes := by
  intro notes
  induction notes with
  | nil =>
    intro siblings exf now tape fes tape1 _ h
    rw [build_file_entries_nil] at h
    obtain ⟨rfl, rfl⟩ := Prod.mk.inj (Option.some.inj h)
    exact List.Forall₂.nil
  | cons note rest ih =>
    intro siblings exf now tape fes tape1 hcl h
    obtain ⟨e, tapeA, es2, h1, h2, rfl⟩ := build_file_entries_cons_eq_some.mp h
    obtain ⟨sig, hdraw, rfl⟩ := build_file_entry_eq_some.mp h1
    exact List.Forall₂.cons
      ⟨sig, sig_draw_valid (hcl (FSNode.name note)) hdraw, rfl⟩
      (ih siblings exf now tapeA es2 tape1 hcl h2)

/-- Rebuilding the `folders` entry list from a written config reproduces it:
each folder entry is looked up by name and re-emitted verbatim. -/
theorem folders_idem (folders : List FSNode) (g : FSNode → FSNode)
    (exold : String → List (String × PyVal))
    (hname : ∀ c, FSNode.name (g c) = FSNode.name c)
    (hnodup : (folders.map FSNode.name).Nodup)
    (hne : ∀ f ∈ folders, FSNode.name f ≠ "") :
    ((folders.map g).map fun f =>
        build_folder_entry (FSNode.name f)
          ((assocGet (map_entries_by_name (PyVal.list ((folders.map fun f2 =>
              build_folder_entry (FSNode.name f2) (exold (FSNode.name f2))).map PyVal.dict)))
            (FSNode.name f)).getD [])) =
      folders.map fun f2 => build_folder_entry (FSNode.name f2) (exold (FSNode.name f2)) := by
  rw [List.map_map]
  apply List.map_congr_left
  intro f hf
  have hps : (folders.map fun f2 =>
      build_folder_entry (FSNode.name f2) (exold (FSNode.name f2))).map PyVal.dict =
      ((folders.map fun f2 =>
        (FSNode.name f2, build_folder_entry (FSNode.name f2) (exold (FSNode.name f2)))).map
          fun p => PyVal.dict p.2) := by
    rw [List.map_map, List.map_map]
    apply List.map_congr_left
    intro f2 _
    rfl
  have hlk : assocGet (map_entries_by_name (PyVal.list ((folders.map fun f2 =>
      build_folder_entry (FSNode.name f2) (exold (FSNode.name f2))).map PyVal.dict)))
      (FSNode.name f) =
      some (build_folder_entry (FSNode.name f) (exold (FSNode.name f))) := by
    rw [assocGet_map_entries, hps]
    apply entries_find_pairs
    · intro p hp
      obtain ⟨f2, hf2, rfl⟩ := List.mem_map.mp hp
      rw [show build_folder_entry (FSNode.name f2) (exold (FSNode.name f2))
          = ("name", PyVal.str (FSNode.name f2)) :: visual_pairs (exold (FSNode.name f2))
        from rfl]
      exact assocGet_cons_eq _ _ _
    · rw [List.map_map]
      rw [show ((fun (p : String × List (String × PyVal)) => p.1) ∘ fun f2 =>
          (FSNode.name f2, build_folder_entry (FSNode.name f2) (exold (FSNode.name f2))))
          = FSNode.name from rfl]
      exact hnodup
    · intro p hp
      obtain ⟨f2, hf2, rfl⟩ := List.mem_map.mp hp
      exact hne f2 hf2
    · exact List.mem_map.mpr ⟨f, hf, rfl⟩
  show build_folder_entry (FSNode.name (g f)) _ = _
  rw [hname f, hlk, Option.getD_some]
  exact build_folder_entry_idem _ _

/-- Rebuilding a node config from its own previous output reproduces it
byte-for-byte and consumes no entropy, under the cleanliness conditions
amended idempotence requires. -/
theorem build_node_config_idem
    (mtime : Option Int) (folders notes cs : List FSNode) (g : FSNode → FSNode)
    (existing : List (String × PyVal)) (now now2 : Int)
    (fes : List (List (String × PyVal))) (sig : String)
    (tapeX tapeY : List Nat)
    (hgname : ∀ c, FSNode.name (g c) = FSNode.name c)
    (hg1 : ∀ c, includedDir c = false → g c = c)
    (hg2 : ∀ c, includedDir c = true →
      ∃ m sc kids, g c = FSNode.dir (FSNode.name c) m sc kids)
    (hid : not_bool_val (assocGet existing "id") = true)
    (hsig : parse_signature_like (PyVal.str sig) = some sig)
    (hsec : now.fdiv 1000000 = now2.fdiv 1000000)
    (hnodup_f : (folders.map FSNode.name).Nodup)
    (hne_f : ∀ f ∈ folders, FSNode.name f ≠ "")
    (hnodup_n : (notes.map FSNode.name).Nodup)
    (hne_n : ∀ n ∈ notes, FSNode.name n ≠ "")
    (hfiles_clean : ∀ nm : String,
      not_bool_val (assocGet ((assocGet (map_entries_by_name (dictGetD existing "files"))
        nm).getD []) "id") = true ∧
      not_bool_val (assocGet ((assocGet (map_entries_by_name (dictGetD existing "files"))
        nm).getD []) "signature") = true)
    (hrun_files : build_file_entries notes cs
      (map_entries_by_name (dictGetD existing "files")) now tapeX = some (fes, tapeY)) :
    ∀ tape2 : List Nat,
      build_node_config mtime (folders.map g) notes (cs.map g)
          (build_node_config_pure mtime folders existing now fes sig) now2 tape2 =
        some (build_node_config_pure mtime folders existing now fes sig, tape2) := by
  intro tape2
  have hnames := build_file_entries_names notes cs _ now tapeX fes tapeY hrun_files
  have hspec := build_file_entries_spec notes cs _ now tapeX fes tapeY
    (fun nm => (hfiles_clean nm).2) hrun_files
  have hlen := hnames.length_eq
  have hdF : dictGetD (build_node_config_pure mtime folders existing now fes sig) "files" =
      PyVal.list (fes.map PyVal.dict) := by
    rw [dictGetD, assocGet_node_pure_files, Option.getD_some]
  have hpoint : List.Forall₂ (fun (note : FSNode) (e : List (String × PyVal)) =>
      (assocGet (map_entries_by_name (dictGetD
        (build_node_config_pure mtime folders existing now fes sig) "files"))
        (FSNode.name note)).getD [] = e ∧
      ∀ tp : List Nat, build_file_entry note (cs.map g) e now2 tp = some (e, tp))
      notes fes := by
    rw [List.forall₂_iff_zip]
    refine ⟨hlen, ?_⟩
    intro note e hz
    have hlk : entries_find (fes.map PyVal.dict) (FSNode.name note) = some e := by
      have hmm : (FSNode.name note, e) ∈ (notes.zip fes).map fun p => (FSNode.name p.1, p.2) :=
        List.mem_map.mpr ⟨(note, e), hz, rfl⟩
      have hfe : fes.map PyVal.dict = ((notes.zip fes).map fun p =>
          (FSNode.name p.1, p.2)).map fun p => PyVal.dict p.2 := by
        rw [List.map_map]
        rw [show ((fun (p : String × List (String × PyVal)) => PyVal.dict p.2) ∘
            fun (p : FSNode × List (String × PyVal)) => (FSNode.name p.1, p.2))
            = (PyVal.dict ∘ Prod.snd) from rfl]
        rw [← List.map_map]
        rw [List.map_snd_zip notes fes (le_of_eq hlen.symm)]
      rw [hfe]
      apply entries_find_pairs
      · intro p hp
        obtain ⟨⟨n2, e2⟩, hz2, rfl⟩ := List.mem_map.mp hp
        exact List.forall₂_zip hnames hz2
      · rw [List.map_map]
        rw [show ((fun (p : String × List (String × PyVal)) => p.1) ∘
            fun (p : FSNode × List (String × PyVal)) => (FSNode.name p.1, p.2))
            = (FSNode.name ∘ Prod.fst) from rfl]
        rw [← List.map_map]
        rw [List.map_fst_zip notes fes (le_of_eq hlen)]
        exact hnodup_n
      · intro p hp
        obtain ⟨⟨n2, e2⟩, hz2, rfl⟩ := List.mem_map.mp hp
        exact hne_n n2 (List.of_mem_zip hz2).1
      · exact hmm
    constructor
    · rw [hdF, assocGet_map_entries, hlk, Option.getD_some]
    · obtain ⟨s, hsv, he⟩ := List.forall₂_zip hspec hz
      intro tp
      rw [he]
      exact build_file_entry_idem note cs (cs.map g) _ now now2 s
        (hfiles_clean (FSNode.name note)).1 hsv hsec
        (infer_map (FSNode.name note) cs g hg1 hg2) tp
  have hfes2 : build_file_entries notes (cs.map g)
      (map_entries_by_name (dictGetD
        (build_node_config_pure mtime folders existing now fes sig) "files")) now2 tape2 =
      some (fes, tape2) :=
    build_file_entries_of_pointwise hpoint tape2
  have hdS : sig_draw (build_node_config_pure mtime folders existing now fes sig) tape2 =
      some (sig, tape2) := by
    apply sig_draw_of_some
    rw [dictGetD, assocGet_node_pure_signature, Option.getD_some]
    exact hsig
  have h_ver : version_of (build_node_config_pure mtime folders existing now fes sig) =
      version_of existing :=
    version_of_cfg (by rw [dictGetD, assocGet_node_pure_version, Option.getD_some])
  have h_id2 : (parse_id_like (dictGetD
      (build_node_config_pure mtime folders existing now fes sig) "id")).getD "0" =
      (parse_id_like (dictGetD existing "id")).getD "0" := by
    rw [show dictGetD (build_node_config_pure mtime folders existing now fes sig) "id"
        = PyVal.str ((parse_id_like (dictGetD existing "id")).getD "0") from by
      rw [dictGetD, assocGet_node_pure_id, Option.getD_some]]
    rw [id_getD_valid hid, Option.getD_some]
  have h_ct2 : get_existing_time (build_node_config_pure mtime folders existing now fes sig)
      "created_time" (safe_mtime mtime now2) =
      get_existing_time existing "created_time" (safe_mtime mtime now) :=
    get_existing_time_of_str _ (assocGet_node_pure_created mtime folders existing now fes sig)
      (get_existing_time_ne_empty existing "created_time" _)
  have h_mod2 : iso_utc_from_timestamp (safe_mtime mtime now2) =
      iso_utc_from_timestamp (safe_mtime mtime now) :=
    (iso_safe_mtime_congr mtime hsec).symm
  have h_folders : ((folders.map g).map fun f =>
      build_folder_entry (FSNode.name f)
        ((assocGet (map_entries_by_name (dictGetD
          (build_node_config_pure mtime folders existing now fes sig) "folders"))
          (FSNode.name f)).getD [])) =
      folders.map fun f =>
        build_folder_entry (FSNode.name f)
          ((assocGet (map_entries_by_name (dictGetD existing "folders"))
            (FSNode.name f)).getD []) := by
    rw [show dictGetD (build_node_config_pure mtime folders existing now fes sig) "folders"
        = PyVal.list ((folders.map fun f =>
            build_folder_entry (FSNode.name f)
              ((assocGet (map_entries_by_name (dictGetD existing "folders"))
                (FSNode.name f)).getD [])).map PyVal.dict) from by
      rw [dictGetD, assocGet_node_pure_folders, Option.getD_some]]
    exact folders_idem folders g
      (fun nm => (assocGet (map_entries_by_name (dictGetD existing "folders")) nm).getD [])
      hgname hnodup_f hne_f
  have hkeys2 : ∀ (k : String) (v : PyVal), k ≠ "background_color" → k ≠ "border_color" →
      k ≠ "name_color" →
      ((k, v).1 ≠ "background_color" ∧ (k, v).1 ≠ "border_color" ∧ (k, v).1 ≠ "name_color") :=
    fun _ _ a b c => ⟨a, b, c⟩
  have h_vis2 : visual_pairs (build_node_config_pure mtime folders existing now fes sig) =
      visual_pairs existing := by
    rw [show build_node_config_pure mtime folders existing now fes sig
        = [("version", version_of existing),
           ("id", PyVal.str ((parse_id_like (dictGetD existing "id")).getD "0")),
           ("signature", PyVal.str sig),
           ("created_time", PyVal.str (get_existing_time existing "created_time"
             (safe_mtime mtime now))),
           ("modified_time", PyVal.str (iso_utc_from_timestamp (safe_mtime mtime now))),
           ("files", PyVal.list (fes.map PyVal.dict)),
           ("folders", PyVal.list ((folders.map fun f =>
             build_folder_entry (FSNode.name f)
               ((assocGet (map_entries_by_name (dictGetD existing "folders"))
                 (FSNode.name f)).getD [])).map PyVal.dict))] ++ visual_pairs existing
      from rfl]
    apply visual_pairs_stable
    intro p hp
    simp only [List.mem_cons, List.not_mem_nil, or_false] at hp
    rcases hp with rfl | rfl | rfl | rfl | rfl | rfl | rfl <;>
      exact hkeys2 _ _ (by decide) (by decide) (by decide)
  have hpure : build_node_config_pure mtime (folders.map g)
      (build_node_config_pure mtime folders existing now fes sig) now2 fes sig =
      build_node_config_pure mtime folders existing now fes sig := by
    conv_lhs => rw [build_node_config_pure]
    rw [h_ver, h_id2, h_ct2, h_mod2, h_folders, h_vis2]
    rfl
  apply build_node_config_eq_some.mpr
  exact ⟨fes, tape2, sig, hfes2, hdS, hpure.symm⟩

/-- Structural facts about the by-name child substitution the orchestrator
performs: it fixes non-included children, keeps every name, and preserves
the scanner classification of every child. -/
theorem subst_name (prs : List (String × FSNode)) (g : FSNode → FSNode)
    (hgdef : ∀ c, g c = if includedDir c then (assocGet prs (FSNode.name c)).getD c else c)
    (hdirs : ∀ pr ∈ prs, ∃ m sc2 cs2, pr.2 = FSNode.dir pr.1 m sc2 cs2) :
    (∀ c, includedDir c = false → g c = c) ∧
    (∀ c, includedDir c = true →
      ∃ m sc2 kids, g c = FSNode.dir (FSNode.name c) m sc2 kids) ∧
    (∀ c, FSNode.name (g c) = FSNode.name c) ∧
    (∀ c, includedDir (g c) = includedDir c) ∧
    (∀ c, includedNote (g c) = includedNote c) ∧
    (∀ c, includedNote c = true → g c = c) := by
  have h1 : ∀ c, includedDir c = false → g c = c := by
    intro c h
    rw [hgdef c, if_neg (by rw [h]; exact Bool.false_ne_true)]
  have h2 : ∀ c, includedDir c = true →
      ∃ m sc2 kids, g c = FSNode.dir (FSNode.name c) m sc2 kids := by
    intro c h
    rw [hgdef c, if_pos h]
    rcases hget : assocGet prs (FSNode.name c) with - | v
    · rw [Option.getD_none]
      obtain ⟨hdirc, -, -⟩ := includedDir_spec h
      cases c with
      | dir n mm scc kidsc => exact ⟨mm, scc, kidsc, rfl⟩
      | file a b => cases hdirc
      | symlink a => cases hdirc
    · rw [Option.getD_some]
      obtain ⟨m, sc2, cs2, hv⟩ := hdirs (FSNode.name c, v) (mem_of_assocGet_some hget)
      exact ⟨m, sc2, cs2, hv⟩
  have h3 : ∀ c, FSNode.name (g c) = FSNode.name c := by
    intro c
    by_cases h : includedDir c = true
    · obtain ⟨m, s2, k, hgc⟩ := h2 c h
      rw [hgc]
      rfl
    · rw [h1 c (includedDir_false_of_not h)]
  have h4 : ∀ c, includedDir (g c) = includedDir c := by
    intro c
    by_cases h : includedDir c = true
    · obtain ⟨m, s2, k, hgc⟩ := h2 c h
      rw [hgc, h]
      obtain ⟨hdirc, -, -⟩ := includedDir_spec h
      cases c with
      | dir n mm scc kidsc => exact h
      | file a b => cases hdirc
      | symlink a => cases hdirc
    · rw [h1 c (includedDir_false_of_not h)]
  have h5 : ∀ c, includedNote (g c) = includedNote c := by
    intro c
    by_cases h : includedDir c = true
    · obtain ⟨m, s2, k, hgc⟩ := h2 c h
      rw [hgc]
      obtain ⟨hdirc, -, -⟩ := includedDir_spec h
      cases c with
      | dir n mm scc kidsc => rfl
      | file a b => cases hdirc
      | symlink a => cases hdirc
    · rw [h1 c (includedDir_false_of_not h)]
  refine ⟨h1, h2, h3, h4, h5, ?_⟩
  intro c h
  obtain ⟨⟨n2, m2, rfl⟩, -, -⟩ := includedNote_spec h
  exact h1 _ rfl

/-- Applying the by-name substitution twice is the same as applying it
once, as long as every included child's name is actually listed. -/
theorem subst_idem_on (prs : List (String × FSNode)) (g : FSNode → FSNode)
    (hgdef : ∀ c, g c = if includedDir c then (assocGet prs (FSNode.name c)).getD c else c)
    (hdirs : ∀ pr ∈ prs, ∃ m sc2 cs2, pr.2 = FSNode.dir pr.1 m sc2 cs2)
    {c : FSNode}
    (hkey : includedDir c = true → ∃ v, assocGet prs (FSNode.name c) = some v) :
    g (g c) = g c := by
  obtain ⟨h1, h2, h3, h4, -, -⟩ := subst_name prs g hgdef hdirs
  by_cases h : includedDir c = true
  · obtain ⟨v, hv⟩ := hkey h
    have hgc : g c = v := by
      rw [hgdef c, if_pos h, hv, Option.getD_some]
    have hIv : includedDir (g c) = true := by
      rw [h4 c]
      exact h
    rw [hgdef (g c), if_pos hIv, h3 c, hv, Option.getD_some, hgc]
  · rw [h1 c (includedDir_false_of_not h), h1 c (includedDir_false_of_not h)]

theorem clean_tree_dir_parts {name : String} {mtime : Option Int} {sc : SidecarFile}
    {cs : List FSNode} (h : clean_tree (FSNode.dir name mtime sc cs) = true) :
    clean_sidecar sc = true ∧ distinctNames (cs.map FSNode.name) = true ∧
    (∀ c ∈ cs, FSNode.name c ≠ "") ∧ clean_children cs = true := by
  rw [clean_tree] at h
  simp only [Bool.and_eq_true] at h
  obtain ⟨⟨⟨hsc, hdn⟩, hnen⟩, hcc⟩ := h
  refine ⟨hsc, hdn, ?_, hcc⟩
  intro c hc
  have := List.all_eq_true.mp hnen c hc
  simpa using this

/-- Cleanliness of the loaded existing state: no boolean `id`/`signature`
at the top level, and none inside any looked-up `files` entry. -/
theorem clean_sidecar_parts {sc : SidecarFile} (h : clean_sidecar sc = true) :
    not_bool_val (assocGet (load_existing_config sc) "id") = true ∧
    not_bool_val (assocGet (load_existing_config sc) "signature") = true ∧
    ∀ nm : String,
      not_bool_val (assocGet ((assocGet (map_entries_by_name
        (dictGetD (load_existing_config sc) "files")) nm).getD []) "id") = true ∧
      not_bool_val (assocGet ((assocGet (map_entries_by_name
        (dictGetD (load_existing_config sc) "files")) nm).getD []) "signature") = true := by
  cases sc with
  | missing => exact ⟨rfl, rfl, fun nm => ⟨rfl, rfl⟩⟩
  | invalid => exact ⟨rfl, rfl, fun nm => ⟨rfl, rfl⟩⟩
  | content v =>
    cases v
    case dict kvs =>
      rw [show clean_sidecar (SidecarFile.content (PyVal.dict kvs)) = clean_config kvs
        from rfl] at h
      have h2 := h
      rw [clean_config, Bool.and_eq_true, Bool.and_eq_true] at h2
      exact ⟨h2.1.1, h2.1.2, fun nm => lookup_files_clean h nm⟩
    all_goals exact ⟨rfl, rfl, fun nm => ⟨rfl, rfl⟩⟩

/-- The full idempotence induction: a second wet run over a first run's
output tree (clean input, same-second clocks) rewrites every config
byte-identically, reproduces all counts and reports, and consumes no
entropy. -/
theorem rebuild_idem : ∀ fuel : Nat,
    (∀ t vb path now tape out now2 tape2,
      clean_tree t = true →
      now.fdiv 1000000 = now2.fdiv 1000000 →
      rebuild_recursively fuel t false vb path now tape = some out →
      rebuild_recursively fuel out.tree false vb path now2 tape2 =
        some ⟨out.configs, out.folderCount, out.noteCount, out.reports, out.tree, tape2⟩) ∧
    (∀ fs vb path now tape sub now2 tape2,
      (∀ f ∈ fs, clean_tree f = true) →
      now.fdiv 1000000 = now2.fdiv 1000000 →
      (fs.map FSNode.name).Nodup →
      rebuild_children fuel fs false vb path now tape = some sub →
      rebuild_children fuel (fs.map fun f => (assocGet sub.pairs (FSNode.name f)).getD f)
          false vb path now2 tape2 =
        some ⟨sub.pairs, sub.configs, sub.folderCount, sub.noteCount, sub.reports, tape2⟩) := by
  intro fuel
  induction fuel with
  | zero =>
    constructor
    · intro t vb path now tape out now2 tape2 _ _ h
      cases h
    · intro fs vb path now tape sub now2 tape2 _ _ _ h
      cases h
  | succ fuel ih =>
    obtain ⟨ihP, ihQ⟩ := ih
    constructor
    · intro t vb path now tape out now2 tape2 hclean hsec hrun
      cases t with
      | file nm m => rw [rebuild_file] at hrun; cases hrun
      | symlink nm => rw [rebuild_symlink] at hrun; cases hrun
      | dir name mtime sc cs =>
        obtain ⟨cfg, tape1, sub, hb, hsub, rfl⟩ := rebuild_dir_eq_some.mp hrun
        obtain ⟨hsc, hdn, hnen, hcc⟩ := clean_tree_dir_parts hclean
        obtain ⟨hclA, hclB, hclC⟩ := clean_sidecar_parts hsc
        obtain ⟨fes, tapeF, sig, hfe, hdrw, rfl⟩ := build_node_config_eq_some.mp hb
        have hsigv : parse_signature_like (PyVal.str sig) = some sig :=
          sig_draw_valid hclB hdrw
        have hnodup_cs : (cs.map FSNode.name).Nodup := (distinctNames_iff_nodup _).mp hdn
        have hnodup_f : (((iter_children cs).1).map FSNode.name).Nodup :=
          nodup_names_filter_sort cs includedDir hnodup_cs
        have hnodup_n : (((iter_children cs).2).map FSNode.name).Nodup :=
          nodup_names_filter_sort cs includedNote hnodup_cs
        have hne_f : ∀ f ∈ (iter_children cs).1, FSNode.name f ≠ "" :=
          fun f hf => hnen f (mem_sort_filter.mp hf).1
        have hne_n : ∀ n ∈ (iter_children cs).2, FSNode.name n ≠ "" :=
          fun n hn => hnen n (mem_sort_filter.mp hn).1
        have hdirs : ∀ pr ∈ sub.pairs, ∃ m sc2 cs2, pr.2 = FSNode.dir pr.1 m sc2 cs2 :=
          rebuild_children_pairs_dirs (iter_children cs).1 fuel false vb path now tape1
            sub hsub
        have hkeys := rebuild_children_keys (iter_children cs).1 fuel false vb path now
          tape1 sub hsub
        obtain ⟨hg1, hg2, hg3, hg4, hg5, hg6⟩ := subst_name sub.pairs
          (fun c => if includedDir c then (assocGet sub.pairs (FSNode.name c)).getD c else c)
          (fun c => rfl) hdirs
        have hiter := iter_children_map cs
          (fun c => if includedDir c then (assocGet sub.pairs (FSNode.name c)).getD c else c)
          hg3 hg4 hg5 hg6
        have hkey : ∀ c ∈ cs, includedDir c = true →
            ∃ v, assocGet sub.pairs (FSNode.name c) = some v := by
          intro c hc h
          apply assocGet_isSome_of_key
          rw [hkeys]
          exact List.mem_map_of_mem FSNode.name (mem_sort_filter.mpr ⟨hc, h⟩)
        dsimp only
        refine rebuild_dir_eq_some.mpr
          ⟨build_node_config_pure mtime (iter_children cs).1 (load_existing_config sc)
            now fes sig, tape2,
            ⟨sub.pairs, sub.configs, sub.folderCount, sub.noteCount, sub.reports, tape2⟩,
            ?_, ?_, ?_⟩
        · rw [hiter]
          dsimp only
          exact build_node_config_idem mtime (iter_children cs).1 (iter_children cs).2 cs
            (fun c => if includedDir c then (assocGet sub.pairs (FSNode.name c)).getD c else c)
            (load_existing_config sc) now now2 fes sig tape tapeF
            hg3 hg1 hg2 hclA hsigv hsec hnodup_f hne_f hnodup_n hne_n hclC hfe tape2
        · rw [hiter]
          dsimp only
          have hmapform : ((iter_children cs).1.map fun c =>
              if includedDir c then (assocGet sub.pairs (FSNode.name c)).getD c else c) =
              (iter_children cs).1.map fun f =>
                (assocGet sub.pairs (FSNode.name f)).getD f := by
            apply List.map_congr_left
            intro f hf
            dsimp only
            rw [if_pos (mem_sort_filter.mp hf).2]
          rw [hmapform]
          exact ihQ (iter_children cs).1 vb path now tape1 sub now2 tape2
            (fun f hf => clean_children_mem hcc f (mem_sort_filter.mp hf).1) hsec
            hnodup_f hsub
        · rw [hiter]
          dsimp only
          rw [List.length_map, List.map_map]
          have hcomp : (cs.map ((fun x => if includedDir x then
              (assocGet sub.pairs (FSNode.name x)).getD x else x) ∘
              fun x => if includedDir x then (assocGet sub.pairs (FSNode.name x)).getD x
                else x)) =
              cs.map fun x => if includedDir x then
                (assocGet sub.pairs (FSNode.name x)).getD x else x := by
            apply List.map_congr_left
            intro c hc
            exact subst_idem_on sub.pairs
              (fun x => if includedDir x then (assocGet sub.pairs (FSNode.name x)).getD x
                else x)
              (fun x => rfl) hdirs (hkey c hc)
          rw [hcomp]
          simp only [Bool.or_false, if_neg Bool.false_ne_true]
    · intro fs vb path now tape sub now2 tape2 hcl hsec hnodup hrun
      cases fs with
      | nil =>
        rw [rebuild_children_nil] at hrun
        obtain rfl := Option.some.inj hrun
        dsimp only
        rw [show (([] : List FSNode).map fun f =>
          (assocGet ([] : List (String × FSNode)) (FSNode.name f)).getD f) = [] from rfl]
        rw [rebuild_children_nil]
      | cons f rest =>
        obtain ⟨o1, o2, h1, h2, rfl⟩ := rebuild_children_cons_eq_some.mp hrun
        obtain ⟨sc2, cs2, hsh⟩ := rebuild_tree_shape h1
        have hnm : FSNode.name o1.tree = FSNode.name f := by
          rw [hsh]
          rfl
        have hP := ihP f vb (path ++ "/" ++ FSNode.name f) now tape o1 now2 tape2
          (hcl f (List.mem_cons_self _ _)) hsec h1
        have hQ := ihQ rest vb path now o1.tape o2 now2 tape2
          (fun x hx => hcl x (List.mem_cons_of_mem _ hx)) hsec
          (by rw [List.map_cons, List.nodup_cons] at hnodup; exact hnodup.2) h2
        dsimp only
        have hlist : ((f :: rest).map fun x =>
            (assocGet ((FSNode.name f, o1.tree) :: o2.pairs) (FSNode.name x)).getD x) =
            o1.tree :: rest.map fun x => (assocGet o2.pairs (FSNode.name x)).getD x := by
          rw [List.map_cons]
          congr 1
          · rw [assocGet_cons_eq, Option.getD_some]
          · apply List.map_congr_left
            intro x hx
            have hne : FSNode.name f ≠ FSNode.name x := by
              intro he
              rw [List.map_cons, List.nodup_cons] at hnodup
              exact hnodup.1 (he ▸ List.mem_map_of_mem FSNode.name hx)
            rw [assocGet_cons_ne _ _ hne]
        rw [hlist]
        refine rebuild_children_cons_eq_some.mpr
          ⟨⟨o1.configs, o1.folderCount, o1.noteCount, o1.reports, o1.tree, tape2⟩,
            ⟨o2.pairs, o2.configs, o2.folderCount, o2.noteCount, o2.reports, tape2⟩,
            ?_, ?_, ?_⟩
        · rw [hnm]
          exact hP
        · exact hQ
        · rw [hnm]

/-! ### Claim C1: idempotence -/

/-- C1 fails as stated: over a tree whose existing sidecar stores the JSON
boolean `true` under `id` (accepted by the `isinstance(value, int)` test in
`parse_id_like`), the first run writes `id = "True"`, and an immediately
following run over the written state — same clock, no filesystem change in
between — writes `id = "0"`: the id values of the two runs differ. -/
theorem c1_idempotence_counterexample :
    rebuild_recursively 2 (FSNode.dir "nb" (some 0)
        (SidecarFile.content (PyVal.dict [("id", PyVal.bool true)])) [])
        false false "nb" 0 [5] =
      some ⟨1, 0, 0, [], FSNode.dir "nb" (some 0) (SidecarFile.content (PyVal.dict
        [("version", PyVal.int 3), ("id", PyVal.str "True"), ("signature", PyVal.str "5"),
         ("created_time", PyVal.str "1970-01-01T00:00:00Z"),
         ("modified_time", PyVal.str "1970-01-01T00:00:00Z"),
         ("files", PyVal.list []), ("folders", PyVal.list [])])) [], []⟩ ∧
    rebuild_recursively 2 (FSNode.dir "nb" (some 0) (SidecarFile.content (PyVal.dict
        [("version", PyVal.int 3), ("id", PyVal.str "True"), ("signature", PyVal.str "5"),
         ("created_time", PyVal.str "1970-01-01T00:00:00Z"),
         ("modified_time", PyVal.str "1970-01-01T00:00:00Z"),
         ("files", PyVal.list []), ("folders", PyVal.list [])])) [])
        false false "nb" 0 [5] =
      some ⟨1, 0, 0, [], FSNode.dir "nb" (some 0) (SidecarFile.content (PyVal.dict
        [("version", PyVal.int 3), ("id", PyVal.str "0"), ("signature", PyVal.str "5"),
         ("created_time", PyVal.str "1970-01-01T00:00:00Z"),
         ("modified_time", PyVal.str "1970-01-01T00:00:00Z"),
         ("files", PyVal.list []), ("folders", PyVal.list [])])) [], [5]⟩ ∧
    ("True" : String) ≠ "0" :=
  ⟨rfl, rfl, by decide⟩

/-- C1 (amended).  Idempotence holds on clean trees: if no sidecar anywhere
stores a JSON boolean under `id` or `signature` (booleans pass the
`isinstance(value, int)` test, are written as `str(True) = "True"`, and are
rejected on re-parse — see the counterexample), sibling names are distinct
and non-empty (true of any real directory), and the two runs' wall clocks
agree at second precision (consulted only where `stat` failed), then a
second wet run over the first run's output tree rewrites every config
byte-identically — identical `files` and `folders` lists, ids, signatures,
`created_time` and (at second precision on an unchanged file) also
`modified_time` — reproduces all counts and reports, and consumes no
randomness. -/
theorem c1_idempotence_amended :
    ∀ (fuel : Nat) (t : FSNode) (vb : Bool) (path : String) (now : Int) (tape : List Nat)
      (out : RunOut) (now2 : Int) (tape2 : List Nat),
      clean_tree t = true →
      now.fdiv 1000000 = now2.fdiv 1000000 →
      rebuild_recursively fuel t false vb path now tape = some out →
      rebuild_recursively fuel out.tree false vb path now2 tape2 =
        some ⟨out.configs, out.folderCount, out.noteCount, out.reports, out.tree, tape2⟩ :=
  fun fuel t vb path now tape out now2 tape2 h1 h2 h3 =>
    (rebuild_idem fuel).1 t vb path now tape out now2 tape2 h1 h2 h3

/-- Witness for amended C1: a notebook with one note, rebuilt once from a
missing sidecar (drawing signatures 7 and 9), is rebuilt a second time
byte-identically from an empty entropy tape. -/
theorem c1_idempotence_amended_witness :
    rebuild_recursively 2 (FSNode.dir "nb" (some 0) (SidecarFile.content (PyVal.dict
        [("version", PyVal.int 3), ("id", PyVal.str "0"), ("signature", PyVal.str "9"),
         ("created_time", PyVal.str "1970-01-01T00:00:00Z"),
         ("modified_time", PyVal.str "1970-01-01T00:00:00Z"),
         ("files", PyVal.list [PyVal.dict
           [("name", PyVal.str "a.md"), ("id", PyVal.str "0"),
            ("signature", PyVal.str "7"),
            ("created_time", PyVal.str "1970-01-01T00:00:00Z"),
            ("modified_time", PyVal.str "1970-01-01T00:00:00Z"),
            ("tags", PyVal.list []), ("attachment_folder", PyVal.str "")]]),
         ("folders", PyVal.list [])])) [FSNode.file "a.md" (some 0)])
      false false "nb" 0 [] =
    some ⟨1, 0, 1, [], FSNode.dir "nb" (some 0) (SidecarFile.content (PyVal.dict
        [("version", PyVal.int 3), ("id", PyVal.str "0"), ("signature", PyVal.str "9"),
         ("created_time", PyVal.str "1970-01-01T00:00:00Z"),
         ("modified_time", PyVal.str "1970-01-01T00:00:00Z"),
         ("files", PyVal.list [PyVal.dict
           [("name", PyVal.str "a.md"), ("id", PyVal.str "0"),
            ("signature", PyVal.str "7"),
            ("created_time", PyVal.str "1970-01-01T00:00:00Z"),
            ("modified_time", PyVal.str "1970-01-01T00:00:00Z"),
            ("tags", PyVal.list []), ("attachment_folder", PyVal.str "")]]),
         ("folders", PyVal.list [])])) [FSNode.file "a.md" (some 0)], []⟩ :=
  c1_idempotence_amended 2
    (FSNode.dir "nb" (some 0) SidecarFile.missing [FSNode.file "a.md" (some 0)])
    false "nb" 0 [7, 9]
    ⟨1, 0, 1, [], FSNode.dir "nb" (some 0) (SidecarFile.content (PyVal.dict
        [("version", PyVal.int 3), ("id", PyVal.str "0"), ("signature", PyVal.str "9"),
         ("created_time", PyVal.str "1970-01-01T00:00:00Z"),
         ("modified_time", PyVal.str "1970-01-01T00:00:00Z"),
         ("files", PyVal.list [PyVal.dict
           [("name", PyVal.str "a.md"), ("id", PyVal.str "0"),
            ("signature", PyVal.str "7"),
            ("created_time", PyVal.str "1970-01-01T00:00:00Z"),
            ("modified_time", PyVal.str "1970-01-01T00:00:00Z"),
            ("tags", PyVal.list []), ("attachment_folder", PyVal.str "")]]),
         ("folders", PyVal.list [])])) [FSNode.file "a.md" (some 0)], []⟩
    0 [] rfl rfl rfl
